import Mathlib

/-! # Gradient fills of `ext/RMagick/rmfill.c`

A shallow embedding of the gradient fill code of RMagick (`point_fill`,
`vertical_fill`, `horizontal_fill`, `v_diagonal_fill`, `h_diagonal_fill` and
`GradientFill_fill`) together with the properties of these functions.

Conventions of the embedding.

* A C `double` is a rational number and the arithmetic on it is exact.
* `unsigned long` pixel coordinates and raster dimensions are natural numbers.
* A `Quantum` channel value is a natural number; a colour of the data model has
  its channels in `[0, QuantumMax]`.
* The C library function `sqrt` is a parameter `sqrt : ℚ → ℚ` of the functions
  that call it; the facts about it that a property needs are hypotheses.
* The raster is a function from `(x, y)` to pixels together with its dimensions;
  `SetImagePixels` and `SyncImagePixels` are taken to succeed.
* The conversion `(int)` of a double truncates toward zero; it is modelled on
  unbounded integers, which is exact whenever the truncated value fits an `int`.
* `Quantum` is narrower than `int` (8 or 16 bits), so that the difference of two channel
  values is computed in `int` and is their difference as integers.
* Division is the division of `ℚ`, for which `x / 0 = 0`. Where the C code divides a
  double by zero the embedding does not follow it; `strategy_steps` gives the divisor of
  each fill, so that it can be stated when the divisor is not zero.
-/

namespace Rmfill

/-! ## Data model -/

/-- Pixel of a raster (`PixelPacket`): three colour channels and the opacity. -/
structure PixelPacket where
  red : ℕ
  green : ℕ
  blue : ℕ
  opacity : ℕ
deriving DecidableEq, Repr, Inhabited

/-- The raster (`Image`): `columns`, `rows` and the pixel at column `x`, row `y`. -/
structure Image where
  columns : ℕ
  rows : ℕ
  pixels : ℕ → ℕ → PixelPacket

/-- The fill object (`rm_GradientFill`): two points and two colours. -/
structure rm_GradientFill where
  x1 : ℚ
  y1 : ℚ
  x2 : ℚ
  y2 : ℚ
  start_color : PixelPacket
  stop_color : PixelPacket

/-- A Ruby object handle (`VALUE`) as far as `GradientFill_fill` meets them: the fill
object `self` or the image object `image_obj`. -/
inductive VALUE where
  | gradient_fill (fill : rm_GradientFill)
  | image_obj (image : Image)

/-! ## Macros and constants of the headers -/

/-- Modelled from the spec: the macro `FMAX` of `rmagick.h`, which is not under `src/`;
the spec writes it `max`, the larger of two doubles. -/
def FMAX (a b : ℚ) : ℚ := if a > b then a else b

/-- Modelled from the spec: the macro `ROUND_TO_QUANTUM` of `rmagick.h`, which is not
under `src/`: "rounds to nearest integer in the channel domain and clamps to
[0, QuantumMax]". The nearest integer is `⌊value + 1/2⌋`. -/
def ROUND_TO_QUANTUM (QuantumMax : ℕ) (value : ℚ) : ℕ :=
  (min (max ⌊value + 1 / 2⌋ 0) (QuantumMax : ℤ)).toNat

/-- Modelled from the spec: the constant `OpaqueOpacity` of the ImageMagick headers,
the opacity value of a fully opaque pixel. -/
def OpaqueOpacity : ℕ := 0

/-- The conversion `(int) v` of a double: truncation toward zero. -/
def to_int (v : ℚ) : ℤ := if 0 ≤ v then ⌊v⌋ else ⌈v⌉

/-! ## Row access and loops -/

/-- The effect of `SetImagePixels(image, 0, y, image->columns, 1)`, of the stores into the
returned buffer and of `SyncImagePixels(image)`: row `y` of the raster holds the first
`columns` entries of the buffer. -/
def sync_row (image : Image) (y : ℕ) (row_pixels : ℕ → PixelPacket) : Image :=
  { image with
    pixels := fun x' y' =>
      if y' = y ∧ x' < image.columns then row_pixels x' else image.pixels x' y' }

/-- The effect of `SetImagePixels(image, x, 0, 1, image->rows)`, of the stores into the
returned buffer and of `SyncImagePixels(image)`: column `x` of the raster holds the first
`rows` entries of the buffer. -/
def sync_column (image : Image) (x : ℕ) (col_pixels : ℕ → PixelPacket) : Image :=
  { image with
    pixels := fun x' y' =>
      if x' = x ∧ y' < image.rows then col_pixels y' else image.pixels x' y' }

/-- The loop `for (i = 0; i < n; i++) buffer[i] = f(i);`. -/
def store_loop (n : ℕ) (f : ℕ → PixelPacket) (buffer : ℕ → PixelPacket) : ℕ → PixelPacket :=
  (List.range n).foldl (fun buf i => Function.update buf i (f i)) buffer

/-- The call `memcpy(dst, src, n * sizeof(PixelPacket))`. -/
def memcpy (dst src : ℕ → PixelPacket) (n : ℕ) : ℕ → PixelPacket :=
  fun i => if i < n then src i else dst i

/-- The loop `for (y = 0; y < image->rows; y++)` whose body takes the buffer of row `y`,
changes it by `body y` and syncs it. -/
def row_loop (image : Image) (body : ℕ → (ℕ → PixelPacket) → (ℕ → PixelPacket)) : Image :=
  (List.range image.rows).foldl
    (fun img y => sync_row img y (body y (fun x => img.pixels x y))) image

/-- The loop `for (x = 0; x < image->columns; x++)` whose body takes the buffer of column
`x`, changes it by `body x` and syncs it. -/
def column_loop (image : Image) (body : ℕ → (ℕ → PixelPacket) → (ℕ → PixelPacket)) : Image :=
  (List.range image.columns).foldl
    (fun img x => sync_column img x (body x (fun y => img.pixels x y))) image

/-- The pixel stored by every fill: with
`red_step = (stop_color->red - start_color->red) / steps` (and the same for green and
blue), the channel is `ROUND_TO_QUANTUM(start_color->red + (distance * red_step))` and the
opacity is `OpaqueOpacity`. -/
def gradient_pixel (QuantumMax : ℕ) (start_color stop_color : PixelPacket)
    (steps distance : ℚ) : PixelPacket :=
  let red_step : ℚ := (((stop_color.red : ℤ) - (start_color.red : ℤ) : ℤ) : ℚ) / steps
  let green_step : ℚ := (((stop_color.green : ℤ) - (start_color.green : ℤ) : ℤ) : ℚ) / steps
  let blue_step : ℚ := (((stop_color.blue : ℤ) - (start_color.blue : ℤ) : ℤ) : ℚ) / steps
  { red := ROUND_TO_QUANTUM QuantumMax ((start_color.red : ℚ) + distance * red_step)
    green := ROUND_TO_QUANTUM QuantumMax ((start_color.green : ℚ) + distance * green_step)
    blue := ROUND_TO_QUANTUM QuantumMax ((start_color.blue : ℚ) + distance * blue_step)
    opacity := OpaqueOpacity }

/-! ## point_fill -/

/-- The step count of `point_fill`: the distance from the point to `(columns, rows)`. -/
def point_fill_steps (sqrt : ℚ → ℚ) (image : Image) (x0 y0 : ℚ) : ℚ :=
  sqrt (((image.columns : ℚ) - x0) * ((image.columns : ℚ) - x0)
    + ((image.rows : ℚ) - y0) * ((image.rows : ℚ) - y0))

/-- The distance of pixel `(x, y)` in `point_fill`. -/
def point_fill_distance (sqrt : ℚ → ℚ) (x0 y0 : ℚ) (x y : ℕ) : ℚ :=
  sqrt (((x : ℚ) - x0) * ((x : ℚ) - x0) + ((y : ℚ) - y0) * ((y : ℚ) - y0))

/-- The function `point_fill`: a gradient that radiates from a point. -/
def point_fill (sqrt : ℚ → ℚ) (QuantumMax : ℕ) (image : Image) (x0 y0 : ℚ)
    (start_color stop_color : PixelPacket) : Image :=
  let steps := point_fill_steps sqrt image x0 y0
  row_loop image fun y row_pixels =>
    store_loop image.columns
      (fun x =>
        let distance := point_fill_distance sqrt x0 y0 x y
        gradient_pixel QuantumMax start_color stop_color steps distance)
      row_pixels

/-! ## vertical_fill -/

/-- The value of `steps` in `vertical_fill` before the test `steps < 0`. -/
def vertical_fill_steps0 (image : Image) (x1 : ℚ) : ℚ :=
  FMAX x1 ((((image.columns : ℤ) : ℚ)) - x1)

/-- The value of `steps` in `vertical_fill` when the colour steps are computed. -/
def vertical_fill_steps (image : Image) (x1 : ℚ) : ℚ :=
  let steps := vertical_fill_steps0 image x1
  let steps := if steps < 0 then -steps else steps
  if x1 < 0 then steps - x1 else steps

/-- The start colour of `vertical_fill` after the test `steps < 0`. -/
def vertical_fill_start (image : Image) (x1 : ℚ) (start_color stop_color : PixelPacket) :
    PixelPacket :=
  if vertical_fill_steps0 image x1 < 0 then stop_color else start_color

/-- The stop colour of `vertical_fill` after the test `steps < 0`. -/
def vertical_fill_stop (image : Image) (x1 : ℚ) (start_color stop_color : PixelPacket) :
    PixelPacket :=
  if vertical_fill_steps0 image x1 < 0 then start_color else stop_color

/-- The master row of `vertical_fill`. -/
def vertical_fill_master (QuantumMax : ℕ) (image : Image) (x1 : ℚ)
    (start_color stop_color : PixelPacket) : ℕ → PixelPacket :=
  store_loop image.columns
    (fun x =>
      let distance := |x1 - (x : ℚ)|
      gradient_pixel QuantumMax (vertical_fill_start image x1 start_color stop_color)
        (vertical_fill_stop image x1 start_color stop_color)
        (vertical_fill_steps image x1) distance)
    (fun _ => default)

/-- The function `vertical_fill`: a gradient that proceeds from a vertical line to the
right and left sides of the image. -/
def vertical_fill (QuantumMax : ℕ) (image : Image) (x1 : ℚ)
    (start_color stop_color : PixelPacket) : Image :=
  let master := vertical_fill_master QuantumMax image x1 start_color stop_color
  row_loop image fun _ row_pixels => memcpy row_pixels master image.columns

/-! ## horizontal_fill -/

/-- The value of `steps` in `horizontal_fill` before the test `steps < 0`. -/
def horizontal_fill_steps0 (image : Image) (y1 : ℚ) : ℚ :=
  FMAX y1 ((((image.rows : ℤ) : ℚ)) - y1)

/-- The value of `steps` in `horizontal_fill` when the colour steps are computed. -/
def horizontal_fill_steps (image : Image) (y1 : ℚ) : ℚ :=
  let steps := horizontal_fill_steps0 image y1
  let steps := if steps < 0 then -steps else steps
  if y1 < 0 then steps - y1 else steps

/-- The start colour of `horizontal_fill` after the test `steps < 0`. -/
def horizontal_fill_start (image : Image) (y1 : ℚ) (start_color stop_color : PixelPacket) :
    PixelPacket :=
  if horizontal_fill_steps0 image y1 < 0 then stop_color else start_color

/-- The stop colour of `horizontal_fill` after the test `steps < 0`. -/
def horizontal_fill_stop (image : Image) (y1 : ℚ) (start_color stop_color : PixelPacket) :
    PixelPacket :=
  if horizontal_fill_steps0 image y1 < 0 then start_color else stop_color

/-- The master column of `horizontal_fill`. -/
def horizontal_fill_master (QuantumMax : ℕ) (image : Image) (y1 : ℚ)
    (start_color stop_color : PixelPacket) : ℕ → PixelPacket :=
  store_loop image.rows
    (fun y =>
      let distance := |y1 - (y : ℚ)|
      gradient_pixel QuantumMax (horizontal_fill_start image y1 start_color stop_color)
        (horizontal_fill_stop image y1 start_color stop_color)
        (horizontal_fill_steps image y1) distance)
    (fun _ => default)

/-- The function `horizontal_fill`: a gradient that starts from a horizontal line. -/
def horizontal_fill (QuantumMax : ℕ) (image : Image) (y1 : ℚ)
    (start_color stop_color : PixelPacket) : Image :=
  let master := horizontal_fill_master QuantumMax image y1 start_color stop_color
  column_loop image fun _ col_pixels => memcpy col_pixels master image.rows

/-! ## v_diagonal_fill -/

/-- The value of `steps` in `v_diagonal_fill` before the test `steps < 0`. -/
def v_diagonal_fill_steps0 (image : Image) (x1 y1 x2 y2 : ℚ) : ℚ :=
  let m := (y2 - y1) / (x2 - x1)
  let b := y1 - m * x1
  let steps : ℚ := 0
  let d1 := b
  let d2 := m * (image.columns : ℚ) + b
  let steps :=
    if d1 < 0 ∧ d2 < 0 then steps + FMAX |d1| |d2|
    else if d1 > (image.rows : ℚ) ∧ d2 > (image.rows : ℚ) then
      steps + FMAX (d1 - (image.rows : ℚ)) (d2 - (image.rows : ℚ))
    else steps
  let d1 := FMAX b ((image.rows : ℚ) - b)
  let d2 := FMAX d2 ((image.rows : ℚ) - d2)
  steps + FMAX d1 d2

/-- The value of `steps` in `v_diagonal_fill` when the colour steps are computed. -/
def v_diagonal_fill_steps (image : Image) (x1 y1 x2 y2 : ℚ) : ℚ :=
  let steps := v_diagonal_fill_steps0 image x1 y1 x2 y2
  if steps < 0 then -steps else steps

/-- The start colour of `v_diagonal_fill` after the test `steps < 0`. -/
def v_diagonal_fill_start (image : Image) (x1 y1 x2 y2 : ℚ)
    (start_color stop_color : PixelPacket) : PixelPacket :=
  if v_diagonal_fill_steps0 image x1 y1 x2 y2 < 0 then stop_color else start_color

/-- The stop colour of `v_diagonal_fill` after the test `steps < 0`. -/
def v_diagonal_fill_stop (image : Image) (x1 y1 x2 y2 : ℚ)
    (start_color stop_color : PixelPacket) : PixelPacket :=
  if v_diagonal_fill_steps0 image x1 y1 x2 y2 < 0 then start_color else stop_color

/-- The distance of pixel `(x, y)` in `v_diagonal_fill`:
`(double) abs((int)(y-(m * x + b)))`. -/
def v_diagonal_fill_distance (x1 y1 x2 y2 : ℚ) (x y : ℕ) : ℚ :=
  let m := (y2 - y1) / (x2 - x1)
  let b := y1 - m * x1
  ((|to_int ((y : ℚ) - (m * (x : ℚ) + b))| : ℤ) : ℚ)

/-- The function `v_diagonal_fill`: a gradient that starts from a diagonal line and ends
at the top and bottom of the image. -/
def v_diagonal_fill (QuantumMax : ℕ) (image : Image) (x1 y1 x2 y2 : ℚ)
    (start_color stop_color : PixelPacket) : Image :=
  let steps := v_diagonal_fill_steps image x1 y1 x2 y2
  row_loop image fun y row_pixels =>
    store_loop image.columns
      (fun x =>
        let distance := v_diagonal_fill_distance x1 y1 x2 y2 x y
        gradient_pixel QuantumMax (v_diagonal_fill_start image x1 y1 x2 y2 start_color stop_color)
          (v_diagonal_fill_stop image x1 y1 x2 y2 start_color stop_color) steps distance)
      row_pixels

/-! ## h_diagonal_fill -/

/-- The value of `steps` in `h_diagonal_fill` before the test `steps < 0`. -/
def h_diagonal_fill_steps0 (image : Image) (x1 y1 x2 y2 : ℚ) : ℚ :=
  let m := (y2 - y1) / (x2 - x1)
  let b := y1 - m * x1
  let steps : ℚ := 0
  let d1 := -b / m
  let d2 := ((image.rows : ℚ) - b) / m
  let steps :=
    if d1 < 0 ∧ d2 < 0 then steps + FMAX |d1| |d2|
    else if d1 > (image.columns : ℚ) ∧ d2 > (image.columns : ℚ) then
      steps + FMAX ((|to_int ((image.columns : ℚ) - d1)| : ℤ) : ℚ)
        ((|to_int ((image.columns : ℚ) - d2)| : ℤ) : ℚ)
    else steps
  let d1 := FMAX d1 ((image.columns : ℚ) - d1)
  let d2 := FMAX d2 ((image.columns : ℚ) - d2)
  steps + FMAX d1 d2

/-- The value of `steps` in `h_diagonal_fill` when the colour steps are computed. -/
def h_diagonal_fill_steps (image : Image) (x1 y1 x2 y2 : ℚ) : ℚ :=
  let steps := h_diagonal_fill_steps0 image x1 y1 x2 y2
  if steps < 0 then -steps else steps

/-- The start colour of `h_diagonal_fill` after the test `steps < 0`. -/
def h_diagonal_fill_start (image : Image) (x1 y1 x2 y2 : ℚ)
    (start_color stop_color : PixelPacket) : PixelPacket :=
  if h_diagonal_fill_steps0 image x1 y1 x2 y2 < 0 then stop_color else start_color

/-- The stop colour of `h_diagonal_fill` after the test `steps < 0`. -/
def h_diagonal_fill_stop (image : Image) (x1 y1 x2 y2 : ℚ)
    (start_color stop_color : PixelPacket) : PixelPacket :=
  if h_diagonal_fill_steps0 image x1 y1 x2 y2 < 0 then start_color else stop_color

/-- The distance of pixel `(x, y)` in `h_diagonal_fill`:
`(double) abs((int)(x-((y-b)/m)))`. -/
def h_diagonal_fill_distance (x1 y1 x2 y2 : ℚ) (x y : ℕ) : ℚ :=
  let m := (y2 - y1) / (x2 - x1)
  let b := y1 - m * x1
  ((|to_int ((x : ℚ) - (((y : ℚ) - b) / m))| : ℤ) : ℚ)

/-- The function `h_diagonal_fill`: a gradient that starts from a diagonal line and ends
at the sides of the image. -/
def h_diagonal_fill (QuantumMax : ℕ) (image : Image) (x1 y1 x2 y2 : ℚ)
    (start_color stop_color : PixelPacket) : Image :=
  let steps := h_diagonal_fill_steps image x1 y1 x2 y2
  row_loop image fun y row_pixels =>
    store_loop image.columns
      (fun x =>
        let distance := h_diagonal_fill_distance x1 y1 x2 y2 x y
        gradient_pixel QuantumMax (h_diagonal_fill_start image x1 y1 x2 y2 start_color stop_color)
          (h_diagonal_fill_stop image x1 y1 x2 y2 start_color stop_color) steps distance)
      row_pixels

/-! ## GradientFill_fill -/

/-- The five fills among which `GradientFill_fill` chooses. -/
inductive Strategy where
  | point
  | vertical
  | horizontal
  | v_diagonal
  | h_diagonal
deriving DecidableEq, Repr

/-- The branch that `GradientFill_fill` takes: its `if` cascade, with the name of the
called fill in place of the call. -/
def GradientFill_strategy (self : rm_GradientFill) (image : Image) : Strategy :=
  let x1 := self.x1
  let y1 := self.y1
  let x2 := self.x2
  let y2 := self.y2
  if |x2 - x1| < 1 / 2 then
    if |y2 - y1| < 1 / 2 then Strategy.point
    else Strategy.vertical
  else if |y2 - y1| < 1 / 2 then Strategy.horizontal
  else
    let m := (y2 - y1) / (x2 - x1)
    let diagonal := (image.rows : ℚ) / (image.columns : ℚ)
    if |m| ≤ diagonal then Strategy.v_diagonal
    else Strategy.h_diagonal

/-- The fill named by a strategy, called the way `GradientFill_fill` calls it. -/
def run_strategy (sqrt : ℚ → ℚ) (QuantumMax : ℕ) (self : rm_GradientFill) (image : Image) :
    Strategy → Image
  | Strategy.point => point_fill sqrt QuantumMax image self.x1 self.y1 self.start_color self.stop_color
  | Strategy.vertical => vertical_fill QuantumMax image self.x1 self.start_color self.stop_color
  | Strategy.horizontal => horizontal_fill QuantumMax image self.y1 self.start_color self.stop_color
  | Strategy.v_diagonal =>
      v_diagonal_fill QuantumMax image self.x1 self.y1 self.x2 self.y2 self.start_color self.stop_color
  | Strategy.h_diagonal =>
      h_diagonal_fill QuantumMax image self.x1 self.y1 self.x2 self.y2 self.start_color self.stop_color

/-- The method `GradientFill_fill(self, image_obj)`: the returned `VALUE` and the image
after the call. -/
def GradientFill_fill (sqrt : ℚ → ℚ) (QuantumMax : ℕ) (self : rm_GradientFill)
    (image : Image) : VALUE × Image :=
  let x1 := self.x1
  let y1 := self.y1
  let x2 := self.x2
  let y2 := self.y2
  let start_color := self.start_color
  let stop_color := self.stop_color
  let image :=
    if |x2 - x1| < 1 / 2 then
      if |y2 - y1| < 1 / 2 then point_fill sqrt QuantumMax image x1 y1 start_color stop_color
      else vertical_fill QuantumMax image x1 start_color stop_color
    else if |y2 - y1| < 1 / 2 then horizontal_fill QuantumMax image y1 start_color stop_color
    else
      let m := (y2 - y1) / (x2 - x1)
      let diagonal := (image.rows : ℚ) / (image.columns : ℚ)
      if |m| ≤ diagonal then v_diagonal_fill QuantumMax image x1 y1 x2 y2 start_color stop_color
      else h_diagonal_fill QuantumMax image x1 y1 x2 y2 start_color stop_color
  (VALUE.gradient_fill self, image)

/-- The step count by which the fill named by a strategy divides the colour differences. -/
def strategy_steps (sqrt : ℚ → ℚ) (self : rm_GradientFill) (image : Image) : Strategy → ℚ
  | Strategy.point => point_fill_steps sqrt image self.x1 self.y1
  | Strategy.vertical => vertical_fill_steps image self.x1
  | Strategy.horizontal => horizontal_fill_steps image self.y1
  | Strategy.v_diagonal => v_diagonal_fill_steps image self.x1 self.y1 self.x2 self.y2
  | Strategy.h_diagonal => h_diagonal_fill_steps image self.x1 self.y1 self.x2 self.y2

/-- The distance of pixel `(x, y)` that the fill named by a strategy multiplies by the
colour steps. -/
def strategy_distance (sqrt : ℚ → ℚ) (self : rm_GradientFill) (x y : ℕ) : Strategy → ℚ
  | Strategy.point => point_fill_distance sqrt self.x1 self.y1 x y
  | Strategy.vertical => |self.x1 - (x : ℚ)|
  | Strategy.horizontal => |self.y1 - (y : ℚ)|
  | Strategy.v_diagonal => v_diagonal_fill_distance self.x1 self.y1 self.x2 self.y2 x y
  | Strategy.h_diagonal => h_diagonal_fill_distance self.x1 self.y1 self.x2 self.y2 x y

/-! ## Inputs used in examples -/

/-- The square root rounded down to `k` binary places, `⌊√q · 2^k⌋ / 2^k`: a computable
function that can stand for the library `sqrt`. -/
def sqrt_bits (k : ℕ) (q : ℚ) : ℚ :=
  (Nat.sqrt ⌊q * 4 ^ k⌋.toNat : ℚ) / 2 ^ k

/-- A colour with three equal channels, fully opaque. -/
def gray (v : ℕ) : PixelPacket := { red := v, green := v, blue := v, opacity := OpaqueOpacity }

/-- A raster of the given dimensions whose pixels are all `p`. -/
def blank (columns rows : ℕ) (p : PixelPacket) : Image :=
  { columns := columns, rows := rows, pixels := fun _ _ => p }


/-! ## The loops in closed form -/

theorem store_loop_apply (n : ℕ) (f : ℕ → PixelPacket) (buffer : ℕ → PixelPacket) (i : ℕ) :
    store_loop n f buffer i = if i < n then f i else buffer i := by
  unfold store_loop
  induction n with
  | zero => simp
  | succ k ih =>
    rw [List.range_succ, List.foldl_append]
    simp only [List.foldl_cons, List.foldl_nil]
    by_cases h : i = k
    · subst h
      simp
    · rw [Function.update_noteq h, ih]
      by_cases h1 : i < k
      · have h2 : i < k + 1 := by omega
        simp [h1, h2]
      · have h2 : ¬ i < k + 1 := by omega
        simp [h1, h2]

theorem sync_row_pixels (image : Image) (y : ℕ) (row_pixels : ℕ → PixelPacket) (x' y' : ℕ) :
    (sync_row image y row_pixels).pixels x' y'
      = if y' = y ∧ x' < image.columns then row_pixels x' else image.pixels x' y' := rfl

theorem sync_column_pixels (image : Image) (x : ℕ) (col_pixels : ℕ → PixelPacket)
    (x' y' : ℕ) :
    (sync_column image x col_pixels).pixels x' y'
      = if x' = x ∧ y' < image.rows then col_pixels y' else image.pixels x' y' := rfl

/-- The rows written by the first `n` rounds of `row_loop`. -/
theorem row_fold (image : Image) (body : ℕ → (ℕ → PixelPacket) → (ℕ → PixelPacket)) (n : ℕ) :
    ((List.range n).foldl
        (fun img y => sync_row img y (body y (fun x => img.pixels x y))) image).columns
      = image.columns ∧
    ((List.range n).foldl
        (fun img y => sync_row img y (body y (fun x => img.pixels x y))) image).rows
      = image.rows ∧
    ∀ x y, ((List.range n).foldl
        (fun img y => sync_row img y (body y (fun x => img.pixels x y))) image).pixels x y
      = if y < n ∧ x < image.columns then body y (fun x' => image.pixels x' y) x
        else image.pixels x y := by
  induction n with
  | zero => simp
  | succ k ih =>
    obtain ⟨hc, hr, hp⟩ := ih
    rw [List.range_succ, List.foldl_append]
    simp only [List.foldl_cons, List.foldl_nil]
    refine ⟨hc, hr, ?_⟩
    intro x y
    rw [sync_row_pixels, hc]
    by_cases h : y = k
    · subst h
      by_cases hx : x < image.columns
      · have e : (fun x' => ((List.range y).foldl
            (fun img y => sync_row img y (body y (fun x => img.pixels x y))) image).pixels x' y)
            = fun x' => image.pixels x' y := by
          funext x'
          rw [hp]
          simp
        simp [hx, e]
      · simp [hx, hp]
    · have h1 : (y < k + 1) ↔ (y < k) := by omega
      simp [h, hp, h1]

theorem row_loop_columns (image : Image) (body : ℕ → (ℕ → PixelPacket) → (ℕ → PixelPacket)) :
    (row_loop image body).columns = image.columns :=
  (row_fold image body image.rows).1

theorem row_loop_rows (image : Image) (body : ℕ → (ℕ → PixelPacket) → (ℕ → PixelPacket)) :
    (row_loop image body).rows = image.rows :=
  (row_fold image body image.rows).2.1

theorem row_loop_pixels (image : Image) (body : ℕ → (ℕ → PixelPacket) → (ℕ → PixelPacket))
    (x y : ℕ) :
    (row_loop image body).pixels x y
      = if y < image.rows ∧ x < image.columns then body y (fun x' => image.pixels x' y) x
        else image.pixels x y :=
  (row_fold image body image.rows).2.2 x y

/-- The columns written by the first `n` rounds of `column_loop`. -/
theorem column_fold (image : Image) (body : ℕ → (ℕ → PixelPacket) → (ℕ → PixelPacket))
    (n : ℕ) :
    ((List.range n).foldl
        (fun img x => sync_column img x (body x (fun y => img.pixels x y))) image).columns
      = image.columns ∧
    ((List.range n).foldl
        (fun img x => sync_column img x (body x (fun y => img.pixels x y))) image).rows
      = image.rows ∧
    ∀ x y, ((List.range n).foldl
        (fun img x => sync_column img x (body x (fun y => img.pixels x y))) image).pixels x y
      = if x < n ∧ y < image.rows then body x (fun y' => image.pixels x y') y
        else image.pixels x y := by
  induction n with
  | zero => simp
  | succ k ih =>
    obtain ⟨hc, hr, hp⟩ := ih
    rw [List.range_succ, List.foldl_append]
    simp only [List.foldl_cons, List.foldl_nil]
    refine ⟨hc, hr, ?_⟩
    intro x y
    rw [sync_column_pixels, hr]
    by_cases h : x = k
    · subst h
      by_cases hy : y < image.rows
      · have e : (fun y' => ((List.range x).foldl
            (fun img x => sync_column img x (body x (fun y => img.pixels x y))) image).pixels x y')
            = fun y' => image.pixels x y' := by
          funext y'
          rw [hp]
          simp
        simp [hy, e]
      · simp [hy, hp]
    · have h1 : (x < k + 1) ↔ (x < k) := by omega
      simp [h, hp, h1]

theorem column_loop_columns (image : Image)
    (body : ℕ → (ℕ → PixelPacket) → (ℕ → PixelPacket)) :
    (column_loop image body).columns = image.columns :=
  (column_fold image body image.columns).1

theorem column_loop_rows (image : Image) (body : ℕ → (ℕ → PixelPacket) → (ℕ → PixelPacket)) :
    (column_loop image body).rows = image.rows :=
  (column_fold image body image.columns).2.1

theorem column_loop_pixels (image : Image)
    (body : ℕ → (ℕ → PixelPacket) → (ℕ → PixelPacket)) (x y : ℕ) :
    (column_loop image body).pixels x y
      = if x < image.columns ∧ y < image.rows then body x (fun y' => image.pixels x y') y
        else image.pixels x y :=
  (column_fold image body image.columns).2.2 x y

/-! ## The pixel written by each fill -/

theorem point_fill_pixels (sqrt : ℚ → ℚ) (QuantumMax : ℕ) (image : Image) (x0 y0 : ℚ)
    (start_color stop_color : PixelPacket) (x y : ℕ)
    (hx : x < image.columns) (hy : y < image.rows) :
    (point_fill sqrt QuantumMax image x0 y0 start_color stop_color).pixels x y
      = gradient_pixel QuantumMax start_color stop_color (point_fill_steps sqrt image x0 y0)
          (point_fill_distance sqrt x0 y0 x y) := by
  simp [point_fill, row_loop_pixels, store_loop_apply, hx, hy]

theorem vertical_fill_master_apply (QuantumMax : ℕ) (image : Image) (x1 : ℚ)
    (start_color stop_color : PixelPacket) (x : ℕ) (hx : x < image.columns) :
    vertical_fill_master QuantumMax image x1 start_color stop_color x
      = gradient_pixel QuantumMax (vertical_fill_start image x1 start_color stop_color)
          (vertical_fill_stop image x1 start_color stop_color)
          (vertical_fill_steps image x1) |x1 - (x : ℚ)| := by
  simp [vertical_fill_master, store_loop_apply, hx]

theorem vertical_fill_pixels (QuantumMax : ℕ) (image : Image) (x1 : ℚ)
    (start_color stop_color : PixelPacket) (x y : ℕ)
    (hx : x < image.columns) (hy : y < image.rows) :
    (vertical_fill QuantumMax image x1 start_color stop_color).pixels x y
      = gradient_pixel QuantumMax (vertical_fill_start image x1 start_color stop_color)
          (vertical_fill_stop image x1 start_color stop_color)
          (vertical_fill_steps image x1) |x1 - (x : ℚ)| := by
  simp [vertical_fill, row_loop_pixels, memcpy, hx, hy, vertical_fill_master_apply]

theorem horizontal_fill_master_apply (QuantumMax : ℕ) (image : Image) (y1 : ℚ)
    (start_color stop_color : PixelPacket) (y : ℕ) (hy : y < image.rows) :
    horizontal_fill_master QuantumMax image y1 start_color stop_color y
      = gradient_pixel QuantumMax (horizontal_fill_start image y1 start_color stop_color)
          (horizontal_fill_stop image y1 start_color stop_color)
          (horizontal_fill_steps image y1) |y1 - (y : ℚ)| := by
  simp [horizontal_fill_master, store_loop_apply, hy]

theorem horizontal_fill_pixels (QuantumMax : ℕ) (image : Image) (y1 : ℚ)
    (start_color stop_color : PixelPacket) (x y : ℕ)
    (hx : x < image.columns) (hy : y < image.rows) :
    (horizontal_fill QuantumMax image y1 start_color stop_color).pixels x y
      = gradient_pixel QuantumMax (horizontal_fill_start image y1 start_color stop_color)
          (horizontal_fill_stop image y1 start_color stop_color)
          (horizontal_fill_steps image y1) |y1 - (y : ℚ)| := by
  simp [horizontal_fill, column_loop_pixels, memcpy, hx, hy, horizontal_fill_master_apply]

theorem v_diagonal_fill_pixels (QuantumMax : ℕ) (image : Image) (x1 y1 x2 y2 : ℚ)
    (start_color stop_color : PixelPacket) (x y : ℕ)
    (hx : x < image.columns) (hy : y < image.rows) :
    (v_diagonal_fill QuantumMax image x1 y1 x2 y2 start_color stop_color).pixels x y
      = gradient_pixel QuantumMax
          (v_diagonal_fill_start image x1 y1 x2 y2 start_color stop_color)
          (v_diagonal_fill_stop image x1 y1 x2 y2 start_color stop_color)
          (v_diagonal_fill_steps image x1 y1 x2 y2)
          (v_diagonal_fill_distance x1 y1 x2 y2 x y) := by
  simp [v_diagonal_fill, row_loop_pixels, store_loop_apply, hx, hy]

theorem h_diagonal_fill_pixels (QuantumMax : ℕ) (image : Image) (x1 y1 x2 y2 : ℚ)
    (start_color stop_color : PixelPacket) (x y : ℕ)
    (hx : x < image.columns) (hy : y < image.rows) :
    (h_diagonal_fill QuantumMax image x1 y1 x2 y2 start_color stop_color).pixels x y
      = gradient_pixel QuantumMax
          (h_diagonal_fill_start image x1 y1 x2 y2 start_color stop_color)
          (h_diagonal_fill_stop image x1 y1 x2 y2 start_color stop_color)
          (h_diagonal_fill_steps image x1 y1 x2 y2)
          (h_diagonal_fill_distance x1 y1 x2 y2 x y) := by
  simp [h_diagonal_fill, row_loop_pixels, store_loop_apply, hx, hy]

theorem GradientFill_fill_eq (sqrt : ℚ → ℚ) (QuantumMax : ℕ) (self : rm_GradientFill)
    (image : Image) :
    GradientFill_fill sqrt QuantumMax self image
      = (VALUE.gradient_fill self,
          run_strategy sqrt QuantumMax self image (GradientFill_strategy self image)) := by
  unfold GradientFill_fill GradientFill_strategy
  simp only
  split_ifs <;> rfl

/-! ## Rounding -/

theorem ROUND_TO_QUANTUM_le (QuantumMax : ℕ) (value : ℚ) :
    ROUND_TO_QUANTUM QuantumMax value ≤ QuantumMax := by
  unfold ROUND_TO_QUANTUM
  have h : min (max ⌊value + 1 / 2⌋ 0) (QuantumMax : ℤ) ≤ (QuantumMax : ℤ) := min_le_right _ _
  omega

theorem ROUND_TO_QUANTUM_mono (QuantumMax : ℕ) {v w : ℚ} (h : v ≤ w) :
    ROUND_TO_QUANTUM QuantumMax v ≤ ROUND_TO_QUANTUM QuantumMax w := by
  unfold ROUND_TO_QUANTUM
  have h1 : ⌊v + 1 / 2⌋ ≤ ⌊w + 1 / 2⌋ := Int.floor_mono (by linarith)
  apply Int.toNat_le_toNat
  exact min_le_min (max_le_max h1 le_rfl) le_rfl

theorem ROUND_TO_QUANTUM_natCast (QuantumMax n : ℕ) (h : n ≤ QuantumMax) :
    ROUND_TO_QUANTUM QuantumMax (n : ℚ) = n := by
  unfold ROUND_TO_QUANTUM
  have h1 : ⌊(n : ℚ) + 1 / 2⌋ = (n : ℤ) := by
    rw [Int.floor_eq_iff]
    constructor
    · push_cast
      linarith
    · push_cast
      linarith
  rw [h1]
  have h2 : max (n : ℤ) 0 = (n : ℤ) := max_eq_left (by positivity)
  have h3 : min (n : ℤ) (QuantumMax : ℤ) = (n : ℤ) := min_eq_left (by exact_mod_cast h)
  rw [h2, h3]
  simp

theorem gradient_pixel_le (QuantumMax : ℕ) (start_color stop_color : PixelPacket)
    (steps distance : ℚ) :
    (gradient_pixel QuantumMax start_color stop_color steps distance).red ≤ QuantumMax ∧
    (gradient_pixel QuantumMax start_color stop_color steps distance).green ≤ QuantumMax ∧
    (gradient_pixel QuantumMax start_color stop_color steps distance).blue ≤ QuantumMax :=
  ⟨ROUND_TO_QUANTUM_le _ _, ROUND_TO_QUANTUM_le _ _, ROUND_TO_QUANTUM_le _ _⟩

theorem gradient_pixel_opacity (QuantumMax : ℕ) (start_color stop_color : PixelPacket)
    (steps distance : ℚ) :
    (gradient_pixel QuantumMax start_color stop_color steps distance).opacity = OpaqueOpacity :=
  rfl

/-- At distance zero the stored colour is the start colour. -/
theorem gradient_pixel_zero (QuantumMax : ℕ) (start_color stop_color : PixelPacket)
    (steps : ℚ) (hr : start_color.red ≤ QuantumMax) (hg : start_color.green ≤ QuantumMax)
    (hb : start_color.blue ≤ QuantumMax) :
    gradient_pixel QuantumMax start_color stop_color steps 0
      = { red := start_color.red, green := start_color.green, blue := start_color.blue,
          opacity := OpaqueOpacity } := by
  simp [gradient_pixel, ROUND_TO_QUANTUM_natCast, hr, hg, hb]

/-- Every pixel of the raster is written by the fill that a strategy names. -/
theorem run_strategy_pixels (sqrt : ℚ → ℚ) (QuantumMax : ℕ) (self : rm_GradientFill)
    (image : Image) (s : Strategy) (x y : ℕ) (hx : x < image.columns) (hy : y < image.rows) :
    ∃ a b steps distance,
      (run_strategy sqrt QuantumMax self image s).pixels x y
        = gradient_pixel QuantumMax a b steps distance := by
  cases s
  · exact ⟨_, _, _, _, point_fill_pixels sqrt QuantumMax image _ _ _ _ x y hx hy⟩
  · exact ⟨_, _, _, _, vertical_fill_pixels QuantumMax image _ _ _ x y hx hy⟩
  · exact ⟨_, _, _, _, horizontal_fill_pixels QuantumMax image _ _ _ x y hx hy⟩
  · exact ⟨_, _, _, _, v_diagonal_fill_pixels QuantumMax image _ _ _ _ _ _ x y hx hy⟩
  · exact ⟨_, _, _, _, h_diagonal_fill_pixels QuantumMax image _ _ _ _ _ _ x y hx hy⟩

theorem FMAX_eq_max (a b : ℚ) : FMAX a b = max a b := by
  unfold FMAX
  split_ifs with h
  · exact (max_eq_left (le_of_lt h)).symm
  · exact (max_eq_right (not_lt.mp h)).symm

/-- The value of `ROUND_TO_QUANTUM` from the two bounds of the nearest integer. -/
theorem ROUND_TO_QUANTUM_eq (QuantumMax n : ℕ) (value : ℚ) (h : n ≤ QuantumMax)
    (h1 : (n : ℚ) ≤ value + 1 / 2) (h2 : value + 1 / 2 < (n : ℚ) + 1) :
    ROUND_TO_QUANTUM QuantumMax value = n := by
  unfold ROUND_TO_QUANTUM
  have e : ⌊value + 1 / 2⌋ = (n : ℤ) := by
    rw [Int.floor_eq_iff]
    exact ⟨by exact_mod_cast h1, by exact_mod_cast h2⟩
  rw [e]
  have h2 : max (n : ℤ) 0 = (n : ℤ) := max_eq_left (by positivity)
  have h3 : min (n : ℤ) (QuantumMax : ℤ) = (n : ℤ) := min_eq_left (by exact_mod_cast h)
  rw [h2, h3]
  simp

/-! ## Dispatch -/

/-- C1: on a raster with `columns > 0`, `GradientFill_fill` runs exactly one of the five
fills, the one named by `GradientFill_strategy`, and that strategy is: point iff
`|x2-x1| < 0.5` and `|y2-y1| < 0.5`; vertical iff `|x2-x1| < 0.5` and `|y2-y1| >= 0.5`;
horizontal iff `|x2-x1| >= 0.5` and `|y2-y1| < 0.5`; otherwise, with
`m = (y2-y1)/(x2-x1)`, diagonal-vertical-leaning iff `|m| <= rows/columns` and
diagonal-horizontal-leaning iff `|m| > rows/columns`. -/
theorem GradientFill_fill_dispatch (sqrt : ℚ → ℚ) (QuantumMax : ℕ) (self : rm_GradientFill)
    (image : Image) (hc : 0 < image.columns) :
    (GradientFill_fill sqrt QuantumMax self image).2
        = run_strategy sqrt QuantumMax self image (GradientFill_strategy self image) ∧
    (GradientFill_strategy self image = Strategy.point ↔
        |self.x2 - self.x1| < 1 / 2 ∧ |self.y2 - self.y1| < 1 / 2) ∧
    (GradientFill_strategy self image = Strategy.vertical ↔
        |self.x2 - self.x1| < 1 / 2 ∧ 1 / 2 ≤ |self.y2 - self.y1|) ∧
    (GradientFill_strategy self image = Strategy.horizontal ↔
        1 / 2 ≤ |self.x2 - self.x1| ∧ |self.y2 - self.y1| < 1 / 2) ∧
    (GradientFill_strategy self image = Strategy.v_diagonal ↔
        1 / 2 ≤ |self.x2 - self.x1| ∧ 1 / 2 ≤ |self.y2 - self.y1| ∧
          |(self.y2 - self.y1) / (self.x2 - self.x1)|
            ≤ (image.rows : ℚ) / (image.columns : ℚ)) ∧
    (GradientFill_strategy self image = Strategy.h_diagonal ↔
        1 / 2 ≤ |self.x2 - self.x1| ∧ 1 / 2 ≤ |self.y2 - self.y1| ∧
          (image.rows : ℚ) / (image.columns : ℚ)
            < |(self.y2 - self.y1) / (self.x2 - self.x1)|) := by
  have _hc := hc
  refine ⟨by rw [GradientFill_fill_eq], ?_, ?_, ?_, ?_, ?_⟩ <;>
  · unfold GradientFill_strategy
    simp only
    split_ifs with h1 h2 h3 h4 <;> simp_all [not_lt, not_le]

/-- Witness of C1: a line of slope 1 on a 4 by 4 raster selects the
diagonal-vertical-leaning fill. -/
theorem GradientFill_fill_dispatch_witness :
    0 < (blank 4 4 (gray 7)).columns ∧
    GradientFill_strategy ⟨0, 0, 3, 3, gray 0, gray 255⟩ (blank 4 4 (gray 7))
      = Strategy.v_diagonal :=
  ⟨by decide,
    (GradientFill_fill_dispatch (sqrt_bits 20) 255 ⟨0, 0, 3, 3, gray 0, gray 255⟩
      (blank 4 4 (gray 7)) (by decide)).2.2.2.2.1.mpr
      ⟨by norm_num, by norm_num, by norm_num [blank]⟩⟩

/-! ## Range of the channels -/

/-- C2: for colours with channels in `[0, QuantumMax]`, after `GradientFill_fill` every
pixel of the raster has red, green and blue in `[0, QuantumMax]`, and so has every pixel
after each of the five fills: the stored values are clamped, they never wrap. -/
theorem GradientFill_fill_range (sqrt : ℚ → ℚ) (QuantumMax : ℕ) (self : rm_GradientFill)
    (image : Image) (x y : ℕ) (hx : x < image.columns) (hy : y < image.rows)
    (hstart : self.start_color.red ≤ QuantumMax ∧ self.start_color.green ≤ QuantumMax ∧
      self.start_color.blue ≤ QuantumMax)
    (hstop : self.stop_color.red ≤ QuantumMax ∧ self.stop_color.green ≤ QuantumMax ∧
      self.stop_color.blue ≤ QuantumMax) :
    (0 ≤ ((GradientFill_fill sqrt QuantumMax self image).2.pixels x y).red ∧
      ((GradientFill_fill sqrt QuantumMax self image).2.pixels x y).red ≤ QuantumMax ∧
      0 ≤ ((GradientFill_fill sqrt QuantumMax self image).2.pixels x y).green ∧
      ((GradientFill_fill sqrt QuantumMax self image).2.pixels x y).green ≤ QuantumMax ∧
      0 ≤ ((GradientFill_fill sqrt QuantumMax self image).2.pixels x y).blue ∧
      ((GradientFill_fill sqrt QuantumMax self image).2.pixels x y).blue ≤ QuantumMax) ∧
    ∀ s : Strategy,
      ((run_strategy sqrt QuantumMax self image s).pixels x y).red ≤ QuantumMax ∧
      ((run_strategy sqrt QuantumMax self image s).pixels x y).green ≤ QuantumMax ∧
      ((run_strategy sqrt QuantumMax self image s).pixels x y).blue ≤ QuantumMax := by
  have _h1 := hstart
  have _h2 := hstop
  have key : ∀ s : Strategy,
      ((run_strategy sqrt QuantumMax self image s).pixels x y).red ≤ QuantumMax ∧
      ((run_strategy sqrt QuantumMax self image s).pixels x y).green ≤ QuantumMax ∧
      ((run_strategy sqrt QuantumMax self image s).pixels x y).blue ≤ QuantumMax := by
    intro s
    obtain ⟨a, b, steps, distance, e⟩ :=
      run_strategy_pixels sqrt QuantumMax self image s x y hx hy
    rw [e]
    exact gradient_pixel_le QuantumMax a b steps distance
  refine ⟨?_, key⟩
  rw [GradientFill_fill_eq]
  obtain ⟨h1, h2, h3⟩ := key (GradientFill_strategy self image)
  exact ⟨Nat.zero_le _, h1, Nat.zero_le _, h2, Nat.zero_le _, h3⟩

/-- Witness of C2: a point fill from (3, 3) that extrapolates past the stop colour at pixel (0, 0) of a
4 by 4 raster, in the 8-bit domain. -/
theorem GradientFill_fill_range_witness :
    ((GradientFill_fill (sqrt_bits 20) 255 ⟨3, 3, 3, 3, gray 0, gray 255⟩
        (blank 4 4 (gray 7))).2.pixels 0 0).red ≤ 255 :=
  (GradientFill_fill_range (sqrt_bits 20) 255 ⟨3, 3, 3, 3, gray 0, gray 255⟩
    (blank 4 4 (gray 7)) 0 0 (by decide) (by decide)
    ⟨by decide, by decide, by decide⟩ ⟨by decide, by decide, by decide⟩).1.2.1

/-! ## Vertical and horizontal fill -/

/-- C3: after `vertical_fill` every row holds the same colour sequence (pixel `(x, y)`
equals pixel `(x, 0)`), and after `horizontal_fill` every column holds the same colour
sequence (pixel `(x, y)` equals pixel `(0, y)`). -/
theorem axis_uniformity (QuantumMax : ℕ) (image : Image) (x1 y1 : ℚ)
    (start_color stop_color : PixelPacket) (x y : ℕ)
    (hx : x < image.columns) (hy : y < image.rows) :
    (vertical_fill QuantumMax image x1 start_color stop_color).pixels x y
      = (vertical_fill QuantumMax image x1 start_color stop_color).pixels x 0 ∧
    (horizontal_fill QuantumMax image y1 start_color stop_color).pixels x y
      = (horizontal_fill QuantumMax image y1 start_color stop_color).pixels 0 y := by
  have hx0 : 0 < image.columns := by omega
  have hy0 : 0 < image.rows := by omega
  constructor
  · rw [vertical_fill_pixels QuantumMax image x1 _ _ x y hx hy,
      vertical_fill_pixels QuantumMax image x1 _ _ x 0 hx hy0]
  · rw [horizontal_fill_pixels QuantumMax image y1 _ _ x y hx hy,
      horizontal_fill_pixels QuantumMax image y1 _ _ 0 y hx0 hy]

/-- Witness of C3: pixel (2, 3) of a 4 by 4 raster. -/
theorem axis_uniformity_witness :
    (2 < (blank 4 4 (gray 7)).columns ∧ 3 < (blank 4 4 (gray 7)).rows) ∧
    (vertical_fill 255 (blank 4 4 (gray 7)) 1 (gray 0) (gray 255)).pixels 2 3
      = (vertical_fill 255 (blank 4 4 (gray 7)) 1 (gray 0) (gray 255)).pixels 2 0 ∧
    (horizontal_fill 255 (blank 4 4 (gray 7)) 1 (gray 0) (gray 255)).pixels 2 3
      = (horizontal_fill 255 (blank 4 4 (gray 7)) 1 (gray 0) (gray 255)).pixels 0 3 :=
  ⟨⟨by decide, by decide⟩,
    axis_uniformity 255 (blank 4 4 (gray 7)) 1 1 (gray 0) (gray 255) 2 3
      (by decide) (by decide)⟩

/-- The pixel of `point_fill` at the point itself, when the point is a pixel. -/
theorem point_fill_pixel_at_point (sqrt : ℚ → ℚ) (QuantumMax : ℕ) (image : Image)
    (x0 y0 : ℕ) (start_color stop_color : PixelPacket) (hsqrt : sqrt 0 = 0)
    (hx : x0 < image.columns) (hy : y0 < image.rows)
    (hr : start_color.red ≤ QuantumMax) (hg : start_color.green ≤ QuantumMax)
    (hb : start_color.blue ≤ QuantumMax) :
    (point_fill sqrt QuantumMax image (x0 : ℚ) (y0 : ℚ) start_color stop_color).pixels x0 y0
      = { red := start_color.red, green := start_color.green, blue := start_color.blue,
          opacity := OpaqueOpacity } := by
  rw [point_fill_pixels sqrt QuantumMax image _ _ _ _ x0 y0 hx hy]
  have hd : point_fill_distance sqrt (x0 : ℚ) (y0 : ℚ) x0 y0 = 0 := by
    simp [point_fill_distance, hsqrt]
  rw [hd, gradient_pixel_zero QuantumMax start_color stop_color _ hr hg hb]

theorem sqrt_bits_zero (k : ℕ) : sqrt_bits k 0 = 0 := by
  simp [sqrt_bits]

theorem sqrt_bits_nonneg (k : ℕ) (q : ℚ) : 0 ≤ sqrt_bits k q := by
  unfold sqrt_bits
  positivity

theorem sqrt_bits_mono (k : ℕ) (p q : ℚ) (h : p ≤ q) : sqrt_bits k p ≤ sqrt_bits k q := by
  unfold sqrt_bits
  have h1 : ⌊p * 4 ^ k⌋ ≤ ⌊q * 4 ^ k⌋ :=
    Int.floor_mono (mul_le_mul_of_nonneg_right h (by positivity))
  have h2 : Nat.sqrt ⌊p * 4 ^ k⌋.toNat ≤ Nat.sqrt ⌊q * 4 ^ k⌋.toNat :=
    Nat.sqrt_le_sqrt (Int.toNat_le_toNat h1)
  have h3 : ((Nat.sqrt ⌊p * 4 ^ k⌋.toNat : ℕ) : ℚ) ≤ ((Nat.sqrt ⌊q * 4 ^ k⌋.toNat : ℕ) : ℚ) := by
    exact_mod_cast h2
  exact div_le_div_of_nonneg_right h3 (by positivity)

/-- C5: for a point fill whose point `(x0, y0)` has integer coordinates inside the raster
and a library `sqrt` with `sqrt(0) = 0`, the pixel at `(x0, y0)` gets exactly the start
colour in red, green and blue, and the opaque opacity, for every start and stop colour of
the channel domain. -/
theorem point_fill_at_point (sqrt : ℚ → ℚ) (QuantumMax : ℕ) (image : Image) (x0 y0 : ℕ)
    (start_color stop_color : PixelPacket) (hsqrt : sqrt 0 = 0)
    (hx : x0 < image.columns) (hy : y0 < image.rows)
    (hr : start_color.red ≤ QuantumMax) (hg : start_color.green ≤ QuantumMax)
    (hb : start_color.blue ≤ QuantumMax) :
    ((point_fill sqrt QuantumMax image (x0 : ℚ) (y0 : ℚ) start_color stop_color).pixels
        x0 y0).red = start_color.red ∧
    ((point_fill sqrt QuantumMax image (x0 : ℚ) (y0 : ℚ) start_color stop_color).pixels
        x0 y0).green = start_color.green ∧
    ((point_fill sqrt QuantumMax image (x0 : ℚ) (y0 : ℚ) start_color stop_color).pixels
        x0 y0).blue = start_color.blue ∧
    ((point_fill sqrt QuantumMax image (x0 : ℚ) (y0 : ℚ) start_color stop_color).pixels
        x0 y0).opacity = OpaqueOpacity := by
  rw [point_fill_pixel_at_point sqrt QuantumMax image x0 y0 start_color stop_color hsqrt
    hx hy hr hg hb]
  exact ⟨rfl, rfl, rfl, rfl⟩

/-- Witness of C5: the point (1, 2) of a 4 by 4 raster in the 8-bit domain. -/
theorem point_fill_at_point_witness :
    sqrt_bits 20 0 = 0 ∧
    ((point_fill (sqrt_bits 20) 255 (blank 4 4 (gray 7)) ((1 : ℕ) : ℚ) ((2 : ℕ) : ℚ)
        (gray 10) (gray 255)).pixels 1 2).red = 10 :=
  ⟨sqrt_bits_zero 20,
    (point_fill_at_point (sqrt_bits 20) 255 (blank 4 4 (gray 7)) 1 2 (gray 10) (gray 255)
      (sqrt_bits_zero 20) (by decide) (by decide) (by decide) (by decide) (by decide)).1⟩

/-! ## Step counts -/

theorem half_le_max (a c : ℚ) : c / 2 ≤ max a (c - a) := by
  rcases le_total a (c / 2) with h | h
  · exact le_trans (by linarith) (le_max_right a (c - a))
  · exact le_trans h (le_max_left a (c - a))

theorem FMAX_abs_nonneg (a b : ℚ) : 0 ≤ FMAX |a| |b| := by
  rw [FMAX_eq_max]
  exact le_trans (abs_nonneg a) (le_max_left _ _)

theorem vertical_fill_steps0_ge (image : Image) (x1 : ℚ) :
    (image.columns : ℚ) / 2 ≤ vertical_fill_steps0 image x1 := by
  unfold vertical_fill_steps0
  rw [FMAX_eq_max]
  simpa using half_le_max x1 (image.columns : ℚ)

theorem horizontal_fill_steps0_ge (image : Image) (y1 : ℚ) :
    (image.rows : ℚ) / 2 ≤ horizontal_fill_steps0 image y1 := by
  unfold horizontal_fill_steps0
  rw [FMAX_eq_max]
  simpa using half_le_max y1 (image.rows : ℚ)

theorem v_diagonal_fill_steps0_ge (image : Image) (x1 y1 x2 y2 : ℚ) :
    (image.rows : ℚ) / 2 ≤ v_diagonal_fill_steps0 image x1 y1 x2 y2 := by
  unfold v_diagonal_fill_steps0
  simp only [FMAX_eq_max, zero_add]
  have h1 := half_le_max (y1 - (y2 - y1) / (x2 - x1) * x1) (image.rows : ℚ)
  have h2 : max (y1 - (y2 - y1) / (x2 - x1) * x1)
      ((image.rows : ℚ) - (y1 - (y2 - y1) / (x2 - x1) * x1))
      ≤ max (max (y1 - (y2 - y1) / (x2 - x1) * x1)
          ((image.rows : ℚ) - (y1 - (y2 - y1) / (x2 - x1) * x1)))
        (max ((y2 - y1) / (x2 - x1) * (image.columns : ℚ) + (y1 - (y2 - y1) / (x2 - x1) * x1))
          ((image.rows : ℚ)
            - ((y2 - y1) / (x2 - x1) * (image.columns : ℚ)
              + (y1 - (y2 - y1) / (x2 - x1) * x1)))) := le_max_left _ _
  split_ifs with c1 c2
  · have h3 : 0 ≤ max |y1 - (y2 - y1) / (x2 - x1) * x1|
        |(y2 - y1) / (x2 - x1) * (image.columns : ℚ) + (y1 - (y2 - y1) / (x2 - x1) * x1)| :=
      le_trans (abs_nonneg _) (le_max_left _ _)
    linarith
  · have h3 : 0 ≤ max (y1 - (y2 - y1) / (x2 - x1) * x1 - (image.rows : ℚ))
        ((y2 - y1) / (x2 - x1) * (image.columns : ℚ) + (y1 - (y2 - y1) / (x2 - x1) * x1)
          - (image.rows : ℚ)) :=
      le_trans (by linarith [c2.1]) (le_max_left _ _)
    linarith
  · linarith

theorem h_diagonal_fill_steps0_ge (image : Image) (x1 y1 x2 y2 : ℚ) :
    (image.columns : ℚ) / 2 ≤ h_diagonal_fill_steps0 image x1 y1 x2 y2 := by
  unfold h_diagonal_fill_steps0
  simp only [FMAX_eq_max, zero_add]
  have h1 := half_le_max (-(y1 - (y2 - y1) / (x2 - x1) * x1) / ((y2 - y1) / (x2 - x1)))
    (image.columns : ℚ)
  have h2 : max (-(y1 - (y2 - y1) / (x2 - x1) * x1) / ((y2 - y1) / (x2 - x1)))
      ((image.columns : ℚ) - -(y1 - (y2 - y1) / (x2 - x1) * x1) / ((y2 - y1) / (x2 - x1)))
      ≤ max (max (-(y1 - (y2 - y1) / (x2 - x1) * x1) / ((y2 - y1) / (x2 - x1)))
          ((image.columns : ℚ)
            - -(y1 - (y2 - y1) / (x2 - x1) * x1) / ((y2 - y1) / (x2 - x1))))
        (max (((image.rows : ℚ) - (y1 - (y2 - y1) / (x2 - x1) * x1)) / ((y2 - y1) / (x2 - x1)))
          ((image.columns : ℚ)
            - ((image.rows : ℚ) - (y1 - (y2 - y1) / (x2 - x1) * x1))
              / ((y2 - y1) / (x2 - x1)))) := le_max_left _ _
  split_ifs with c1 c2
  · have h3 : 0 ≤ max |-(y1 - (y2 - y1) / (x2 - x1) * x1) / ((y2 - y1) / (x2 - x1))|
        |((image.rows : ℚ) - (y1 - (y2 - y1) / (x2 - x1) * x1)) / ((y2 - y1) / (x2 - x1))| :=
      le_trans (abs_nonneg _) (le_max_left _ _)
    linarith
  · have h3 : (0 : ℚ) ≤ max
        ((|to_int ((image.columns : ℚ)
          - -(y1 - (y2 - y1) / (x2 - x1) * x1) / ((y2 - y1) / (x2 - x1)))| : ℤ) : ℚ)
        ((|to_int ((image.columns : ℚ)
          - ((image.rows : ℚ) - (y1 - (y2 - y1) / (x2 - x1) * x1))
            / ((y2 - y1) / (x2 - x1)))| : ℤ) : ℚ) :=
      le_trans (by exact_mod_cast abs_nonneg _) (le_max_left _ _)
    linarith
  · linarith

/-- When the step count before the test is not negative, the test changes nothing. -/
theorem vertical_fill_no_swap (image : Image) (x1 : ℚ) (start_color stop_color : PixelPacket) :
    vertical_fill_start image x1 start_color stop_color = start_color ∧
    vertical_fill_stop image x1 start_color stop_color = stop_color := by
  have h : ¬ (vertical_fill_steps0 image x1 < 0) :=
    not_lt.mpr (le_trans (by positivity) (vertical_fill_steps0_ge image x1))
  simp [vertical_fill_start, vertical_fill_stop, h]

theorem horizontal_fill_no_swap (image : Image) (y1 : ℚ)
    (start_color stop_color : PixelPacket) :
    horizontal_fill_start image y1 start_color stop_color = start_color ∧
    horizontal_fill_stop image y1 start_color stop_color = stop_color := by
  have h : ¬ (horizontal_fill_steps0 image y1 < 0) :=
    not_lt.mpr (le_trans (by positivity) (horizontal_fill_steps0_ge image y1))
  simp [horizontal_fill_start, horizontal_fill_stop, h]

theorem v_diagonal_fill_no_swap (image : Image) (x1 y1 x2 y2 : ℚ)
    (start_color stop_color : PixelPacket) :
    v_diagonal_fill_start image x1 y1 x2 y2 start_color stop_color = start_color ∧
    v_diagonal_fill_stop image x1 y1 x2 y2 start_color stop_color = stop_color := by
  have h : ¬ (v_diagonal_fill_steps0 image x1 y1 x2 y2 < 0) :=
    not_lt.mpr (le_trans (by positivity) (v_diagonal_fill_steps0_ge image x1 y1 x2 y2))
  simp [v_diagonal_fill_start, v_diagonal_fill_stop, h]

theorem h_diagonal_fill_no_swap (image : Image) (x1 y1 x2 y2 : ℚ)
    (start_color stop_color : PixelPacket) :
    h_diagonal_fill_start image x1 y1 x2 y2 start_color stop_color = start_color ∧
    h_diagonal_fill_stop image x1 y1 x2 y2 start_color stop_color = stop_color := by
  have h : ¬ (h_diagonal_fill_steps0 image x1 y1 x2 y2 < 0) :=
    not_lt.mpr (le_trans (by positivity) (h_diagonal_fill_steps0_ge image x1 y1 x2 y2))
  simp [h_diagonal_fill_start, h_diagonal_fill_stop, h]

theorem vertical_fill_steps_ge (image : Image) (x1 : ℚ) :
    (image.columns : ℚ) / 2 ≤ vertical_fill_steps image x1 := by
  have h := vertical_fill_steps0_ge image x1
  have h0 : ¬ (vertical_fill_steps0 image x1 < 0) :=
    not_lt.mpr (le_trans (by positivity) h)
  unfold vertical_fill_steps
  simp only [if_neg h0]
  split_ifs with hx <;> linarith

theorem horizontal_fill_steps_ge (image : Image) (y1 : ℚ) :
    (image.rows : ℚ) / 2 ≤ horizontal_fill_steps image y1 := by
  have h := horizontal_fill_steps0_ge image y1
  have h0 : ¬ (horizontal_fill_steps0 image y1 < 0) :=
    not_lt.mpr (le_trans (by positivity) h)
  unfold horizontal_fill_steps
  simp only [if_neg h0]
  split_ifs with hy <;> linarith

theorem v_diagonal_fill_steps_ge (image : Image) (x1 y1 x2 y2 : ℚ) :
    (image.rows : ℚ) / 2 ≤ v_diagonal_fill_steps image x1 y1 x2 y2 := by
  have h := v_diagonal_fill_steps0_ge image x1 y1 x2 y2
  have h0 : ¬ (v_diagonal_fill_steps0 image x1 y1 x2 y2 < 0) :=
    not_lt.mpr (le_trans (by positivity) h)
  unfold v_diagonal_fill_steps
  simp only [if_neg h0]
  exact h

theorem h_diagonal_fill_steps_ge (image : Image) (x1 y1 x2 y2 : ℚ) :
    (image.columns : ℚ) / 2 ≤ h_diagonal_fill_steps image x1 y1 x2 y2 := by
  have h := h_diagonal_fill_steps0_ge image x1 y1 x2 y2
  have h0 : ¬ (h_diagonal_fill_steps0 image x1 y1 x2 y2 < 0) :=
    not_lt.mpr (le_trans (by positivity) h)
  unfold h_diagonal_fill_steps
  simp only [if_neg h0]
  exact h

/-! ## Interpolation -/

/-- A channel interpolated at a distance between zero and the step count lies between
the start and the stop value. -/
theorem channel_between (QuantumMax a b : ℕ) (steps distance : ℚ)
    (hd : 0 ≤ distance) (hds : distance ≤ steps) (ha : a ≤ QuantumMax) (hb : b ≤ QuantumMax) :
    min a b ≤ ROUND_TO_QUANTUM QuantumMax
        ((a : ℚ) + distance * ((((b : ℤ) - (a : ℤ) : ℤ) : ℚ) / steps)) ∧
    ROUND_TO_QUANTUM QuantumMax
        ((a : ℚ) + distance * ((((b : ℤ) - (a : ℤ) : ℤ) : ℚ) / steps)) ≤ max a b := by
  have hr : 0 ≤ distance / steps ∧ distance / steps ≤ 1 := by
    rcases eq_or_lt_of_le (le_trans hd hds) with h | h
    · rw [← h]
      simp
    · exact ⟨div_nonneg hd (le_of_lt h), (div_le_one h).mpr hds⟩
  have e : (a : ℚ) + distance * ((((b : ℤ) - (a : ℤ) : ℤ) : ℚ) / steps)
      = (a : ℚ) + distance / steps * ((b : ℚ) - (a : ℚ)) := by
    push_cast
    ring
  rw [e]
  obtain ⟨r0, r1⟩ := hr
  rcases le_total a b with hab | hab
  · have habq : (a : ℚ) ≤ (b : ℚ) := by exact_mod_cast hab
    have l1 : (a : ℚ) ≤ (a : ℚ) + distance / steps * ((b : ℚ) - (a : ℚ)) := by
      have := mul_nonneg r0 (sub_nonneg.mpr habq)
      linarith
    have l2 : (a : ℚ) + distance / steps * ((b : ℚ) - (a : ℚ)) ≤ (b : ℚ) := by
      have := mul_le_mul_of_nonneg_right r1 (sub_nonneg.mpr habq)
      linarith
    have m1 := ROUND_TO_QUANTUM_mono QuantumMax l1
    have m2 := ROUND_TO_QUANTUM_mono QuantumMax l2
    rw [ROUND_TO_QUANTUM_natCast QuantumMax a ha] at m1
    rw [ROUND_TO_QUANTUM_natCast QuantumMax b hb] at m2
    rw [min_eq_left hab, max_eq_right hab]
    exact ⟨m1, m2⟩
  · have habq : (b : ℚ) ≤ (a : ℚ) := by exact_mod_cast hab
    have l1 : (a : ℚ) + distance / steps * ((b : ℚ) - (a : ℚ)) ≤ (a : ℚ) := by
      have := mul_nonneg r0 (sub_nonneg.mpr habq)
      nlinarith
    have l2 : (b : ℚ) ≤ (a : ℚ) + distance / steps * ((b : ℚ) - (a : ℚ)) := by
      have := mul_le_mul_of_nonneg_right r1 (sub_nonneg.mpr habq)
      nlinarith
    have m1 := ROUND_TO_QUANTUM_mono QuantumMax l1
    have m2 := ROUND_TO_QUANTUM_mono QuantumMax l2
    rw [ROUND_TO_QUANTUM_natCast QuantumMax a ha] at m1
    rw [ROUND_TO_QUANTUM_natCast QuantumMax b hb] at m2
    rw [min_eq_right hab, max_eq_left hab]
    exact ⟨m2, m1⟩

/-- C6 fails as stated: on a 4 by 4 raster in the 8-bit domain, with the point at (3, 3),
start (0,0,0) and stop (255,255,255), the far-corner pixel (3, 3) is at distance 0 and
holds the start colour, so its red value differs from the stop colour's by 255. -/
theorem point_fill_far_corner_counterexample :
    (point_fill (sqrt_bits 20) 255 (blank 4 4 (gray 7)) ((3 : ℕ) : ℚ) ((3 : ℕ) : ℚ)
        (gray 0) (gray 255)).pixels (4 - 1) (4 - 1) = gray 0 ∧
    ¬ (|((((point_fill (sqrt_bits 20) 255 (blank 4 4 (gray 7)) ((3 : ℕ) : ℚ) ((3 : ℕ) : ℚ)
        (gray 0) (gray 255)).pixels (4 - 1) (4 - 1)).red : ℕ) : ℤ)
          - (((gray 255).red : ℕ) : ℤ)| ≤ 1) := by
  have e := point_fill_pixel_at_point (sqrt_bits 20) 255 (blank 4 4 (gray 7)) 3 3
    (gray 0) (gray 255) (sqrt_bits_zero 20) (by decide) (by decide) (by decide) (by decide)
    (by decide)
  have e2 : (point_fill (sqrt_bits 20) 255 (blank 4 4 (gray 7)) ((3 : ℕ) : ℚ) ((3 : ℕ) : ℚ)
      (gray 0) (gray 255)).pixels (4 - 1) (4 - 1) = gray 0 := e
  refine ⟨e2, ?_⟩
  rw [e2]
  decide

/-- C6 as amended: for a point fill on a raster with `columns > 0` and `rows > 0`, a point
with `x0 <= columns-1` and `y0 <= rows-1`, and a library `sqrt` that is non-negative and
monotone on the non-negative numbers, each of the red, green and blue values of the
far-corner pixel `(columns-1, rows-1)` lies between the start colour's and the stop
colour's (inclusive): the step count is the distance to `(columns, rows)`, beyond that
pixel, so the stop colour is approached but need not be reached. -/
theorem point_fill_far_corner (sqrt : ℚ → ℚ) (QuantumMax : ℕ) (image : Image) (x0 y0 : ℚ)
    (start_color stop_color : PixelPacket)
    (hnn : ∀ q, 0 ≤ q → 0 ≤ sqrt q) (hmono : ∀ p q, 0 ≤ p → p ≤ q → sqrt p ≤ sqrt q)
    (hc : 0 < image.columns) (hr : 0 < image.rows)
    (hx0 : x0 ≤ (image.columns : ℚ) - 1) (hy0 : y0 ≤ (image.rows : ℚ) - 1)
    (hstart : start_color.red ≤ QuantumMax ∧ start_color.green ≤ QuantumMax ∧
      start_color.blue ≤ QuantumMax)
    (hstop : stop_color.red ≤ QuantumMax ∧ stop_color.green ≤ QuantumMax ∧
      stop_color.blue ≤ QuantumMax) :
    (min start_color.red stop_color.red
        ≤ ((point_fill sqrt QuantumMax image x0 y0 start_color stop_color).pixels
            (image.columns - 1) (image.rows - 1)).red ∧
      ((point_fill sqrt QuantumMax image x0 y0 start_color stop_color).pixels
            (image.columns - 1) (image.rows - 1)).red
        ≤ max start_color.red stop_color.red) ∧
    (min start_color.green stop_color.green
        ≤ ((point_fill sqrt QuantumMax image x0 y0 start_color stop_color).pixels
            (image.columns - 1) (image.rows - 1)).green ∧
      ((point_fill sqrt QuantumMax image x0 y0 start_color stop_color).pixels
            (image.columns - 1) (image.rows - 1)).green
        ≤ max start_color.green stop_color.green) ∧
    (min start_color.blue stop_color.blue
        ≤ ((point_fill sqrt QuantumMax image x0 y0 start_color stop_color).pixels
            (image.columns - 1) (image.rows - 1)).blue ∧
      ((point_fill sqrt QuantumMax image x0 y0 start_color stop_color).pixels
            (image.columns - 1) (image.rows - 1)).blue
        ≤ max start_color.blue stop_color.blue) := by
  rw [point_fill_pixels sqrt QuantumMax image x0 y0 _ _ (image.columns - 1) (image.rows - 1)
    (by omega) (by omega)]
  have ec : ((image.columns - 1 : ℕ) : ℚ) = (image.columns : ℚ) - 1 := by
    rw [Nat.cast_sub hc]
    simp
  have er : ((image.rows - 1 : ℕ) : ℚ) = (image.rows : ℚ) - 1 := by
    rw [Nat.cast_sub hr]
    simp
  have hD : 0 ≤ ((image.columns : ℚ) - 1 - x0) * ((image.columns : ℚ) - 1 - x0)
      + ((image.rows : ℚ) - 1 - y0) * ((image.rows : ℚ) - 1 - y0) :=
    add_nonneg (mul_self_nonneg _) (mul_self_nonneg _)
  have hDS : ((image.columns : ℚ) - 1 - x0) * ((image.columns : ℚ) - 1 - x0)
      + ((image.rows : ℚ) - 1 - y0) * ((image.rows : ℚ) - 1 - y0)
      ≤ ((image.columns : ℚ) - x0) * ((image.columns : ℚ) - x0)
        + ((image.rows : ℚ) - y0) * ((image.rows : ℚ) - y0) := by
    nlinarith
  have hd : 0 ≤ point_fill_distance sqrt x0 y0 (image.columns - 1) (image.rows - 1) := by
    unfold point_fill_distance
    rw [ec, er]
    exact hnn _ hD
  have hds : point_fill_distance sqrt x0 y0 (image.columns - 1) (image.rows - 1)
      ≤ point_fill_steps sqrt image x0 y0 := by
    unfold point_fill_distance point_fill_steps
    rw [ec, er]
    exact hmono _ _ hD hDS
  exact ⟨channel_between QuantumMax _ _ _ _ hd hds hstart.1 hstop.1,
    channel_between QuantumMax _ _ _ _ hd hds hstart.2.1 hstop.2.1,
    channel_between QuantumMax _ _ _ _ hd hds hstart.2.2 hstop.2.2⟩

/-- Witness of C6 as amended: the point (0, 0) on a 4 by 4 raster in the 8-bit domain. -/
theorem point_fill_far_corner_witness :
    min (gray 0).red (gray 255).red
      ≤ ((point_fill (sqrt_bits 20) 255 (blank 4 4 (gray 7)) 0 0 (gray 0) (gray 255)).pixels
          ((blank 4 4 (gray 7)).columns - 1) ((blank 4 4 (gray 7)).rows - 1)).red ∧
    ((point_fill (sqrt_bits 20) 255 (blank 4 4 (gray 7)) 0 0 (gray 0) (gray 255)).pixels
          ((blank 4 4 (gray 7)).columns - 1) ((blank 4 4 (gray 7)).rows - 1)).red
      ≤ max (gray 0).red (gray 255).red :=
  (point_fill_far_corner (sqrt_bits 20) 255 (blank 4 4 (gray 7)) 0 0 (gray 0) (gray 255)
    (fun q _ => sqrt_bits_nonneg 20 q) (fun p q _ h => sqrt_bits_mono 20 p q h)
    (by decide) (by decide) (by norm_num [blank]) (by norm_num [blank])
    ⟨by decide, by decide, by decide⟩ ⟨by decide, by decide, by decide⟩).1

/-! ## The one-pixel raster -/

theorem to_int_intCast (n : ℤ) : to_int (n : ℚ) = n := by
  unfold to_int
  split_ifs <;> simp

theorem to_int_zero : to_int 0 = 0 := by
  simp [to_int]

theorem vertical_fill_steps_eq (image : Image) (x1 : ℚ) :
    vertical_fill_steps image x1
      = max x1 ((image.columns : ℚ) - x1) + (if x1 < 0 then -x1 else 0) := by
  have h0 : ¬ (vertical_fill_steps0 image x1 < 0) :=
    not_lt.mpr (le_trans (by positivity) (vertical_fill_steps0_ge image x1))
  unfold vertical_fill_steps
  simp only [if_neg h0]
  unfold vertical_fill_steps0
  rw [FMAX_eq_max]
  split_ifs
  · simp
    ring
  · simp

/-- C7 fails as stated: on a 1 by 1 raster in the 8-bit domain the spec with points
(1, 0) and (1, 5), start (0,0,0) and stop (255,255,255) selects the vertical fill with
line `x = 1`; the pixel (0, 0) is at distance 1 of 1 step and holds the stop colour. -/
theorem one_pixel_fill_counterexample :
    (GradientFill_fill (sqrt_bits 20) 255 ⟨1, 0, 1, 5, gray 0, gray 255⟩
        (blank 1 1 (gray 7))).2.pixels 0 0 = gray 255 ∧
    ¬ (((GradientFill_fill (sqrt_bits 20) 255 ⟨1, 0, 1, 5, gray 0, gray 255⟩
        (blank 1 1 (gray 7))).2.pixels 0 0).red = (gray 0).red) := by
  have hs : GradientFill_strategy ⟨1, 0, 1, 5, gray 0, gray 255⟩ (blank 1 1 (gray 7))
      = Strategy.vertical := by
    unfold GradientFill_strategy
    norm_num
  have e : (GradientFill_fill (sqrt_bits 20) 255 ⟨1, 0, 1, 5, gray 0, gray 255⟩
      (blank 1 1 (gray 7))).2.pixels 0 0 = gray 255 := by
    rw [GradientFill_fill_eq, hs]
    simp only [run_strategy]
    rw [vertical_fill_pixels 255 (blank 1 1 (gray 7)) 1 _ _ 0 0 (by decide) (by decide),
      (vertical_fill_no_swap _ _ _ _).1, (vertical_fill_no_swap _ _ _ _).2,
      vertical_fill_steps_eq]
    simp only [gradient_pixel, gray, blank]
    rw [ROUND_TO_QUANTUM_eq 255 255 _ (by decide) (by norm_num) (by norm_num)]
  refine ⟨e, ?_⟩
  rw [e]
  decide

/-- C7 as amended: for a 1 by 1 raster and a gradient spec whose first point is the pixel
itself (`x1 = 0` and `y1 = 0`), with any second point and any colours of the channel
domain (hence any of the five strategies), and a library `sqrt` with `sqrt(0) = 0`, the
pixel (0, 0) equals the start colour in red, green and blue after `GradientFill_fill`. -/
theorem one_pixel_fill (sqrt : ℚ → ℚ) (QuantumMax : ℕ) (self : rm_GradientFill)
    (image : Image) (hsqrt : sqrt 0 = 0) (hc : image.columns = 1) (hr : image.rows = 1)
    (hx1 : self.x1 = 0) (hy1 : self.y1 = 0)
    (hstart : self.start_color.red ≤ QuantumMax ∧ self.start_color.green ≤ QuantumMax ∧
      self.start_color.blue ≤ QuantumMax) :
    ((GradientFill_fill sqrt QuantumMax self image).2.pixels 0 0).red
      = self.start_color.red ∧
    ((GradientFill_fill sqrt QuantumMax self image).2.pixels 0 0).green
      = self.start_color.green ∧
    ((GradientFill_fill sqrt QuantumMax self image).2.pixels 0 0).blue
      = self.start_color.blue := by
  have hx : 0 < image.columns := by omega
  have hy : 0 < image.rows := by omega
  have key : ∀ s : Strategy, (run_strategy sqrt QuantumMax self image s).pixels 0 0
      = { red := self.start_color.red, green := self.start_color.green,
          blue := self.start_color.blue, opacity := OpaqueOpacity } := by
    intro s
    cases s
    · simp only [run_strategy]
      rw [point_fill_pixels sqrt QuantumMax image _ _ _ _ 0 0 hx hy]
      have hd : point_fill_distance sqrt self.x1 self.y1 0 0 = 0 := by
        simp [point_fill_distance, hx1, hy1, hsqrt]
      rw [hd, gradient_pixel_zero QuantumMax _ _ _ hstart.1 hstart.2.1 hstart.2.2]
    · simp only [run_strategy]
      rw [vertical_fill_pixels QuantumMax image _ _ _ 0 0 hx hy,
        (vertical_fill_no_swap _ _ _ _).1, (vertical_fill_no_swap _ _ _ _).2]
      have hd : |self.x1 - ((0 : ℕ) : ℚ)| = 0 := by
        simp [hx1]
      rw [hd, gradient_pixel_zero QuantumMax _ _ _ hstart.1 hstart.2.1 hstart.2.2]
    · simp only [run_strategy]
      rw [horizontal_fill_pixels QuantumMax image _ _ _ 0 0 hx hy,
        (horizontal_fill_no_swap _ _ _ _).1, (horizontal_fill_no_swap _ _ _ _).2]
      have hd : |self.y1 - ((0 : ℕ) : ℚ)| = 0 := by
        simp [hy1]
      rw [hd, gradient_pixel_zero QuantumMax _ _ _ hstart.1 hstart.2.1 hstart.2.2]
    · simp only [run_strategy]
      rw [v_diagonal_fill_pixels QuantumMax image _ _ _ _ _ _ 0 0 hx hy,
        (v_diagonal_fill_no_swap _ _ _ _ _ _ _).1, (v_diagonal_fill_no_swap _ _ _ _ _ _ _).2]
      have hd : v_diagonal_fill_distance self.x1 self.y1 self.x2 self.y2 0 0 = 0 := by
        simp [v_diagonal_fill_distance, hx1, hy1, to_int_zero]
      rw [hd, gradient_pixel_zero QuantumMax _ _ _ hstart.1 hstart.2.1 hstart.2.2]
    · simp only [run_strategy]
      rw [h_diagonal_fill_pixels QuantumMax image _ _ _ _ _ _ 0 0 hx hy,
        (h_diagonal_fill_no_swap _ _ _ _ _ _ _).1, (h_diagonal_fill_no_swap _ _ _ _ _ _ _).2]
      have hd : h_diagonal_fill_distance self.x1 self.y1 self.x2 self.y2 0 0 = 0 := by
        simp [h_diagonal_fill_distance, hx1, hy1, to_int_zero]
      rw [hd, gradient_pixel_zero QuantumMax _ _ _ hstart.1 hstart.2.1 hstart.2.2]
  rw [GradientFill_fill_eq, key]
  exact ⟨rfl, rfl, rfl⟩

/-- Witness of C7 as amended: a diagonal spec from (0, 0) to (3, 5) on a 1 by 1 raster. -/
theorem one_pixel_fill_witness :
    ((GradientFill_fill (sqrt_bits 20) 255 ⟨0, 0, 3, 5, gray 10, gray 255⟩
        (blank 1 1 (gray 7))).2.pixels 0 0).red = (gray 10).red :=
  (one_pixel_fill (sqrt_bits 20) 255 ⟨0, 0, 3, 5, gray 10, gray 255⟩ (blank 1 1 (gray 7))
    (sqrt_bits_zero 20) rfl rfl rfl rfl ⟨by decide, by decide, by decide⟩).1

/-! ## Mirror images -/

/-- C8 fails as stated: on a 4 by 1 raster in the 8-bit domain with `x1 = 0`, start
(0,0,0) and stop (255,255,255), the fill with the line mirrored to `x = 4` and the colours
swapped holds 0 at pixel (0, 0), while the fill with line `x = 0` holds 191 at the
mirrored pixel (3, 0). -/
theorem vertical_fill_mirror_counterexample :
    (vertical_fill 255 (blank 4 1 (gray 7)) (4 - 0) (gray 255) (gray 0)).pixels 0 0 = gray 0 ∧
    (vertical_fill 255 (blank 4 1 (gray 7)) 0 (gray 0) (gray 255)).pixels (4 - 1 - 0) 0
      = gray 191 ∧
    ¬ ((vertical_fill 255 (blank 4 1 (gray 7)) (4 - 0) (gray 255) (gray 0)).pixels 0 0
      = (vertical_fill 255 (blank 4 1 (gray 7)) 0 (gray 0) (gray 255)).pixels (4 - 1 - 0) 0) := by
  have e1 : (vertical_fill 255 (blank 4 1 (gray 7)) (4 - 0) (gray 255) (gray 0)).pixels 0 0
      = gray 0 := by
    rw [vertical_fill_pixels 255 (blank 4 1 (gray 7)) _ _ _ 0 0 (by decide) (by decide),
      (vertical_fill_no_swap _ _ _ _).1, (vertical_fill_no_swap _ _ _ _).2,
      vertical_fill_steps_eq]
    simp only [gradient_pixel, gray, blank]
    rw [ROUND_TO_QUANTUM_eq 255 0 _ (by decide) (by norm_num) (by norm_num)]
  have e2 : (vertical_fill 255 (blank 4 1 (gray 7)) 0 (gray 0) (gray 255)).pixels (4 - 1 - 0) 0
      = gray 191 := by
    rw [vertical_fill_pixels 255 (blank 4 1 (gray 7)) _ _ _ (4 - 1 - 0) 0 (by decide)
        (by decide),
      (vertical_fill_no_swap _ _ _ _).1, (vertical_fill_no_swap _ _ _ _).2,
      vertical_fill_steps_eq]
    simp only [gradient_pixel, gray, blank]
    rw [ROUND_TO_QUANTUM_eq 255 191 _ (by decide) (by norm_num) (by norm_num)]
  refine ⟨e1, e2, ?_⟩
  rw [e1, e2]
  decide

/-- C8 as amended: for a raster with `W` columns, a line position `0 <= x1 <= W` and
colours `s`, `e`, the vertical fill with the line mirrored to `x = W - x1` and the same
start and stop colours (not swapped) is the reflection about `x = W/2` of the vertical
fill with line `x = x1`: for every pixel `(x, y)` with `1 <= x < W`, the first fill's
value at `(x, y)` equals the second fill's value at `(W - x, y)`. -/
theorem vertical_fill_mirror (QuantumMax : ℕ) (image : Image) (x1 : ℚ)
    (s e : PixelPacket) (x y : ℕ) (h0 : 0 ≤ x1) (hW : x1 ≤ (image.columns : ℚ))
    (hx1 : 1 ≤ x) (hx : x < image.columns) (hy : y < image.rows) :
    (vertical_fill QuantumMax image ((image.columns : ℚ) - x1) s e).pixels x y
      = (vertical_fill QuantumMax image x1 s e).pixels (image.columns - x) y := by
  rw [vertical_fill_pixels QuantumMax image _ _ _ x y hx hy,
    vertical_fill_pixels QuantumMax image _ _ _ (image.columns - x) y (by omega) hy,
    (vertical_fill_no_swap _ _ _ _).1, (vertical_fill_no_swap _ _ _ _).2,
    (vertical_fill_no_swap _ _ _ _).1, (vertical_fill_no_swap _ _ _ _).2,
    vertical_fill_steps_eq, vertical_fill_steps_eq]
  have hc : ((image.columns - x : ℕ) : ℚ) = (image.columns : ℚ) - (x : ℚ) := by
    rw [Nat.cast_sub (le_of_lt hx)]
  have n1 : ¬ (x1 < 0) := not_lt.mpr h0
  have n2 : ¬ ((image.columns : ℚ) - x1 < 0) := not_lt.mpr (sub_nonneg.mpr hW)
  have es : max ((image.columns : ℚ) - x1) ((image.columns : ℚ) - ((image.columns : ℚ) - x1))
      = max x1 ((image.columns : ℚ) - x1) := by
    rw [sub_sub_cancel, max_comm]
  have ed : |(image.columns : ℚ) - x1 - (x : ℚ)| = |x1 - ((image.columns : ℚ) - (x : ℚ))| := by
    rw [← abs_neg]
    congr 1
    ring
  rw [if_neg n1, if_neg n2, es, hc, ed]

/-- Witness of C8 as amended: the line `x = 1` on a 4 by 2 raster, pixel (1, 1). -/
theorem vertical_fill_mirror_witness :
    (vertical_fill 255 (blank 4 2 (gray 7)) ((((blank 4 2 (gray 7)).columns : ℕ) : ℚ) - 1)
        (gray 0) (gray 255)).pixels 1 1
      = (vertical_fill 255 (blank 4 2 (gray 7)) 1 (gray 0) (gray 255)).pixels
          ((blank 4 2 (gray 7)).columns - 1) 1 :=
  vertical_fill_mirror 255 (blank 4 2 (gray 7)) 1 (gray 0) (gray 255) 1 1
    (by norm_num) (by norm_num [blank]) (by decide) (by decide) (by decide)

/-- C9: on a square raster (`rows = columns = N > 0`) and for a gradient line `y = x`
(`y1 = x1`, `y2 = x2`, `|x2-x1| >= 0.5`) the result of `GradientFill_fill` is symmetric
under the rotation by 180 degrees: the pixel at `(x, y)` equals the pixel at
`(N-1-x, N-1-y)`. -/
theorem slope_one_rotation (sqrt : ℚ → ℚ) (QuantumMax : ℕ) (self : rm_GradientFill)
    (image : Image) (N x y : ℕ) (hN : 0 < N) (hc : image.columns = N) (hr : image.rows = N)
    (h1 : self.y1 = self.x1) (h2 : self.y2 = self.x2) (h12 : 1 / 2 ≤ |self.x2 - self.x1|)
    (hx : x < N) (hy : y < N) :
    (GradientFill_fill sqrt QuantumMax self image).2.pixels x y
      = (GradientFill_fill sqrt QuantumMax self image).2.pixels (N - 1 - x) (N - 1 - y) := by
  have hNq : (N : ℚ) ≠ 0 := by
    exact_mod_cast (Nat.pos_iff_ne_zero.mp hN)
  have hne : self.x2 - self.x1 ≠ 0 := by
    intro h
    rw [h] at h12
    norm_num at h12
  have hm : (self.x2 - self.x1) / (self.x2 - self.x1) = 1 := div_self hne
  have hs : GradientFill_strategy self image = Strategy.v_diagonal := by
    unfold GradientFill_strategy
    simp only [h1, h2, hc, hr, hm, div_self hNq, if_neg (not_lt.mpr h12)]
    norm_num
  have hd : ∀ i j : ℕ, v_diagonal_fill_distance self.x1 self.y1 self.x2 self.y2 i j
      = ((|(j : ℤ) - (i : ℤ)| : ℤ) : ℚ) := by
    intro i j
    unfold v_diagonal_fill_distance
    simp only [h1, h2, hm]
    have e : (j : ℚ) - (1 * (i : ℚ) + (self.x1 - 1 * self.x1)) = (((j : ℤ) - (i : ℤ) : ℤ) : ℚ) := by
      push_cast
      ring
    rw [e, to_int_intCast]
  rw [GradientFill_fill_eq, hs]
  simp only [run_strategy]
  rw [v_diagonal_fill_pixels QuantumMax image _ _ _ _ _ _ x y (by omega) (by omega),
    v_diagonal_fill_pixels QuantumMax image _ _ _ _ _ _ (N - 1 - x) (N - 1 - y) (by omega)
      (by omega), hd, hd]
  have e : |(((N - 1 - y : ℕ) : ℤ)) - (((N - 1 - x : ℕ) : ℤ))| = |(y : ℤ) - (x : ℤ)| := by
    rw [← abs_neg]
    congr 1
    omega
  rw [e]

/-- Witness of C9: the line through (0, 0) and (3, 3) on a 4 by 4 raster, pixel (1, 3). -/
theorem slope_one_rotation_witness :
    (GradientFill_fill (sqrt_bits 20) 255 ⟨0, 0, 3, 3, gray 0, gray 255⟩
        (blank 4 4 (gray 7))).2.pixels 1 3
      = (GradientFill_fill (sqrt_bits 20) 255 ⟨0, 0, 3, 3, gray 0, gray 255⟩
        (blank 4 4 (gray 7))).2.pixels (4 - 1 - 1) (4 - 1 - 3) :=
  slope_one_rotation (sqrt_bits 20) 255 ⟨0, 0, 3, 3, gray 0, gray 255⟩ (blank 4 4 (gray 7))
    4 1 3 (by decide) rfl rfl rfl rfl (by norm_num) (by decide) (by decide)

/-! ## Division by the step count -/

/-- C10, the code at the failing input: a spec whose two points are both the corner
`(columns, rows)` selects the point fill, and with a library `sqrt` with `sqrt(0) = 0`
the step count by which `point_fill` divides the colour differences is zero. The four
line strategies never divide by zero: their step count is at least half the relevant
dimension, which is positive on a raster with `columns > 0` and `rows > 0`. -/
theorem point_fill_steps_at_corner (sqrt : ℚ → ℚ) (image : Image)
    (start_color stop_color : PixelPacket) (hsqrt : sqrt 0 = 0) :
    GradientFill_strategy
        ⟨(image.columns : ℚ), (image.rows : ℚ), (image.columns : ℚ), (image.rows : ℚ),
          start_color, stop_color⟩ image = Strategy.point ∧
    strategy_steps sqrt
        ⟨(image.columns : ℚ), (image.rows : ℚ), (image.columns : ℚ), (image.rows : ℚ),
          start_color, stop_color⟩ image Strategy.point = 0 ∧
    ∀ (self : rm_GradientFill) (s : Strategy), 0 < image.columns → 0 < image.rows →
      s ≠ Strategy.point → 0 < strategy_steps sqrt self image s := by
  refine ⟨?_, ?_, ?_⟩
  · unfold GradientFill_strategy
    norm_num
  · simp [strategy_steps, point_fill_steps, hsqrt]
  · intro self s hc hr hs
    have hcq : (0 : ℚ) < (image.columns : ℚ) / 2 := by
      have : (0 : ℚ) < (image.columns : ℚ) := by exact_mod_cast hc
      linarith
    have hrq : (0 : ℚ) < (image.rows : ℚ) / 2 := by
      have : (0 : ℚ) < (image.rows : ℚ) := by exact_mod_cast hr
      linarith
    cases s
    · exact absurd rfl hs
    · exact lt_of_lt_of_le hcq (vertical_fill_steps_ge image _)
    · exact lt_of_lt_of_le hrq (horizontal_fill_steps_ge image _)
    · exact lt_of_lt_of_le hrq (v_diagonal_fill_steps_ge image _ _ _ _)
    · exact lt_of_lt_of_le hcq (h_diagonal_fill_steps_ge image _ _ _ _)

/-- Witness of C10: the point (4, 4) on a 4 by 4 raster. -/
theorem point_fill_steps_at_corner_witness :
    sqrt_bits 20 0 = 0 ∧
    strategy_steps (sqrt_bits 20) ⟨((4 : ℕ) : ℚ), ((4 : ℕ) : ℚ), ((4 : ℕ) : ℚ), ((4 : ℕ) : ℚ),
      gray 0, gray 255⟩ (blank 4 4 (gray 7)) Strategy.point = 0 :=
  ⟨sqrt_bits_zero 20,
    (point_fill_steps_at_corner (sqrt_bits 20) (blank 4 4 (gray 7)) (gray 0) (gray 255)
      (sqrt_bits_zero 20)).2.1⟩


/-! ## Dependence on the raster -/

theorem run_strategy_columns (sqrt : ℚ → ℚ) (QuantumMax : ℕ) (self : rm_GradientFill)
    (image : Image) (s : Strategy) :
    (run_strategy sqrt QuantumMax self image s).columns = image.columns := by
  cases s
  · exact row_loop_columns image _
  · exact row_loop_columns image _
  · exact column_loop_columns image _
  · exact row_loop_columns image _
  · exact row_loop_columns image _

theorem run_strategy_rows (sqrt : ℚ → ℚ) (QuantumMax : ℕ) (self : rm_GradientFill)
    (image : Image) (s : Strategy) :
    (run_strategy sqrt QuantumMax self image s).rows = image.rows := by
  cases s
  · exact row_loop_rows image _
  · exact row_loop_rows image _
  · exact column_loop_rows image _
  · exact row_loop_rows image _
  · exact row_loop_rows image _

/-- The pixel that the fill named by a strategy writes at a place of the raster. -/
theorem run_strategy_pixel_eq (sqrt : ℚ → ℚ) (QuantumMax : ℕ) (self : rm_GradientFill)
    (image : Image) (s : Strategy) (x y : ℕ) (hx : x < image.columns) (hy : y < image.rows)
    (hs : s ≠ Strategy.point) :
    (run_strategy sqrt QuantumMax self image s).pixels x y
      = gradient_pixel QuantumMax self.start_color self.stop_color
          (strategy_steps sqrt self image s) (strategy_distance sqrt self x y s) := by
  cases s
  · exact absurd rfl hs
  · simp only [run_strategy, strategy_steps, strategy_distance]
    rw [vertical_fill_pixels QuantumMax image _ _ _ x y hx hy,
      (vertical_fill_no_swap _ _ _ _).1, (vertical_fill_no_swap _ _ _ _).2]
  · simp only [run_strategy, strategy_steps, strategy_distance]
    rw [horizontal_fill_pixels QuantumMax image _ _ _ x y hx hy,
      (horizontal_fill_no_swap _ _ _ _).1, (horizontal_fill_no_swap _ _ _ _).2]
  · simp only [run_strategy, strategy_steps, strategy_distance]
    rw [v_diagonal_fill_pixels QuantumMax image _ _ _ _ _ _ x y hx hy,
      (v_diagonal_fill_no_swap _ _ _ _ _ _ _).1, (v_diagonal_fill_no_swap _ _ _ _ _ _ _).2]
  · simp only [run_strategy, strategy_steps, strategy_distance]
    rw [h_diagonal_fill_pixels QuantumMax image _ _ _ _ _ _ x y hx hy,
      (h_diagonal_fill_no_swap _ _ _ _ _ _ _).1, (h_diagonal_fill_no_swap _ _ _ _ _ _ _).2]

theorem run_strategy_point_pixel_eq (sqrt : ℚ → ℚ) (QuantumMax : ℕ) (self : rm_GradientFill)
    (image : Image) (x y : ℕ) (hx : x < image.columns) (hy : y < image.rows) :
    (run_strategy sqrt QuantumMax self image Strategy.point).pixels x y
      = gradient_pixel QuantumMax self.start_color self.stop_color
          (strategy_steps sqrt self image Strategy.point)
          (strategy_distance sqrt self x y Strategy.point) :=
  point_fill_pixels sqrt QuantumMax image _ _ _ _ x y hx hy

/-- Outside the raster the fill named by a strategy leaves the pixels as they were. -/
theorem run_strategy_pixels_outside (sqrt : ℚ → ℚ) (QuantumMax : ℕ) (self : rm_GradientFill)
    (image : Image) (s : Strategy) (x y : ℕ) (h : ¬ (x < image.columns ∧ y < image.rows)) :
    (run_strategy sqrt QuantumMax self image s).pixels x y = image.pixels x y := by
  have h' : ¬ (y < image.rows ∧ x < image.columns) := fun c => h ⟨c.2, c.1⟩
  cases s
  · simp only [run_strategy, point_fill]
    rw [row_loop_pixels, if_neg h']
  · simp only [run_strategy, vertical_fill]
    rw [row_loop_pixels, if_neg h']
  · simp only [run_strategy, horizontal_fill]
    rw [column_loop_pixels, if_neg h]
  · simp only [run_strategy, v_diagonal_fill]
    rw [row_loop_pixels, if_neg h']
  · simp only [run_strategy, h_diagonal_fill]
    rw [row_loop_pixels, if_neg h']

/-- The strategy and the step counts depend on the raster through its dimensions only. -/
theorem strategy_congr (sqrt : ℚ → ℚ) (self : rm_GradientFill) (a b : Image)
    (hc : a.columns = b.columns) (hr : a.rows = b.rows) :
    GradientFill_strategy self a = GradientFill_strategy self b ∧
    ∀ s, strategy_steps sqrt self a s = strategy_steps sqrt self b s := by
  obtain ⟨ca, ra, pa⟩ := a
  obtain ⟨cb, rb, pb⟩ := b
  simp only at hc hr
  subst hc
  subst hr
  refine ⟨rfl, ?_⟩
  intro s
  cases s <;> rfl

/-- C11: `GradientFill_fill` writes every pixel of the raster from the spec and the
dimensions alone: on two rasters of equal dimensions the filled rasters agree at every
pixel `(x, y)` with `x < columns` and `y < rows`, each such pixel has the opaque opacity,
the returned fill object is the stored spec unchanged, the dimensions are kept, and a
second fill with the same fill object leaves the raster unchanged. -/
theorem GradientFill_fill_deterministic (sqrt : ℚ → ℚ) (QuantumMax : ℕ)
    (self : rm_GradientFill) (a b : Image) (x y : ℕ)
    (hc : a.columns = b.columns) (hr : a.rows = b.rows)
    (hx : x < a.columns) (hy : y < a.rows) :
    (GradientFill_fill sqrt QuantumMax self a).2.pixels x y
      = (GradientFill_fill sqrt QuantumMax self b).2.pixels x y ∧
    ((GradientFill_fill sqrt QuantumMax self a).2.pixels x y).opacity = OpaqueOpacity ∧
    (GradientFill_fill sqrt QuantumMax self a).1 = VALUE.gradient_fill self ∧
    ((GradientFill_fill sqrt QuantumMax self a).2.columns = a.columns ∧
      (GradientFill_fill sqrt QuantumMax self a).2.rows = a.rows) ∧
    ∀ i j,
      (GradientFill_fill sqrt QuantumMax self (GradientFill_fill sqrt QuantumMax self a).2).2.pixels
          i j
        = (GradientFill_fill sqrt QuantumMax self a).2.pixels i j := by
  have pix : ∀ (im : Image) (s : Strategy) (i j : ℕ), i < im.columns → j < im.rows →
      (run_strategy sqrt QuantumMax self im s).pixels i j
        = gradient_pixel QuantumMax self.start_color self.stop_color
            (strategy_steps sqrt self im s) (strategy_distance sqrt self i j s) := by
    intro im s i j hi hj
    by_cases hs : s = Strategy.point
    · subst hs
      exact run_strategy_point_pixel_eq sqrt QuantumMax self im i j hi hj
    · exact run_strategy_pixel_eq sqrt QuantumMax self im s i j hi hj hs
  simp only [GradientFill_fill_eq]
  refine ⟨?_, ?_, trivial, ⟨run_strategy_columns _ _ _ _ _, run_strategy_rows _ _ _ _ _⟩, ?_⟩
  · rw [pix a _ x y hx hy, pix b _ x y (hc ▸ hx) (hr ▸ hy),
      (strategy_congr sqrt self a b hc hr).1, (strategy_congr sqrt self a b hc hr).2]
  · rw [pix a _ x y hx hy]
    rfl
  · intro i j
    have hc2 := run_strategy_columns sqrt QuantumMax self a (GradientFill_strategy self a)
    have hr2 := run_strategy_rows sqrt QuantumMax self a (GradientFill_strategy self a)
    have hs2 := strategy_congr sqrt self
      (run_strategy sqrt QuantumMax self a (GradientFill_strategy self a)) a hc2 hr2
    by_cases h : i < a.columns ∧ j < a.rows
    · rw [pix _ _ i j (hc2 ▸ h.1) (hr2 ▸ h.2), pix a _ i j h.1 h.2, hs2.1, hs2.2]
    · rw [run_strategy_pixels_outside sqrt QuantumMax self _ _ i j (by rw [hc2, hr2]; exact h)]

/-- Witness of C11: two 4 by 4 rasters with different contents, pixel (1, 2). -/
theorem GradientFill_fill_deterministic_witness :
    (GradientFill_fill (sqrt_bits 20) 255 ⟨0, 0, 3, 3, gray 0, gray 255⟩
        (blank 4 4 (gray 7))).2.pixels 1 2
      = (GradientFill_fill (sqrt_bits 20) 255 ⟨0, 0, 3, 3, gray 0, gray 255⟩
        (blank 4 4 (gray 99))).2.pixels 1 2 :=
  (GradientFill_fill_deterministic (sqrt_bits 20) 255 ⟨0, 0, 3, 3, gray 0, gray 255⟩
    (blank 4 4 (gray 7)) (blank 4 4 (gray 99)) 1 2 rfl rfl (by decide) (by decide)).1

/-! ## Returned value -/

/-- C12 fails as stated: on a 4 by 4 raster the value returned by `GradientFill_fill` is
the fill object `self`, not the image object of the raster it filled. -/
theorem GradientFill_fill_returns_counterexample :
    (GradientFill_fill (sqrt_bits 20) 255 ⟨0, 0, 3, 3, gray 0, gray 255⟩
        (blank 4 4 (gray 7))).1
      = VALUE.gradient_fill ⟨0, 0, 3, 3, gray 0, gray 255⟩ ∧
    ¬ ((GradientFill_fill (sqrt_bits 20) 255 ⟨0, 0, 3, 3, gray 0, gray 255⟩
        (blank 4 4 (gray 7))).1
      = VALUE.image_obj (GradientFill_fill (sqrt_bits 20) 255 ⟨0, 0, 3, 3, gray 0, gray 255⟩
        (blank 4 4 (gray 7))).2) := by
  refine ⟨rfl, ?_⟩
  intro h
  have h2 : VALUE.gradient_fill ⟨0, 0, 3, 3, gray 0, gray 255⟩
      = VALUE.image_obj (GradientFill_fill (sqrt_bits 20) 255
          ⟨0, 0, 3, 3, gray 0, gray 255⟩ (blank 4 4 (gray 7))).2 := h
  cases h2

/-- C12 as amended: the gradient fill operation fills the image passed as argument and
returns the fill object `self` on which it was called, never an image object, so that
calls can be chained on the fill object. -/
theorem GradientFill_fill_returns (sqrt : ℚ → ℚ) (QuantumMax : ℕ) (self : rm_GradientFill)
    (image : Image) :
    (GradientFill_fill sqrt QuantumMax self image).1 = VALUE.gradient_fill self ∧
    (∀ img : Image, (GradientFill_fill sqrt QuantumMax self image).1 ≠ VALUE.image_obj img) ∧
    (GradientFill_fill sqrt QuantumMax self image).2
      = run_strategy sqrt QuantumMax self image (GradientFill_strategy self image) := by
  refine ⟨rfl, ?_, by rw [GradientFill_fill_eq]⟩
  intro img h
  have h2 : VALUE.gradient_fill self = VALUE.image_obj img := h
  cases h2

/-! ## Distances of the diagonal fills -/

theorem to_int_of_nonneg (v : ℚ) (n : ℤ) (h0 : 0 ≤ v) (h1 : (n : ℚ) ≤ v)
    (h2 : v < (n : ℚ) + 1) : to_int v = n := by
  unfold to_int
  rw [if_pos h0, Int.floor_eq_iff]
  exact ⟨h1, h2⟩

theorem to_int_of_neg (v : ℚ) (n : ℤ) (h0 : v < 0) (h1 : (n : ℚ) - 1 < v)
    (h2 : v ≤ (n : ℚ)) : to_int v = n := by
  unfold to_int
  rw [if_neg (not_le.mpr h0), Int.ceil_eq_iff]
  exact ⟨h1, h2⟩

/-- The line `y = m*x + b` solved for `x`: with `m = (y2-y1)/(x2-x1)` not zero,
`(t - b)/m` is `m2*t + b2` for the line through the transposed points. -/
theorem line_inverse (x1 y1 x2 y2 t : ℚ) (hm : (y2 - y1) / (x2 - x1) ≠ 0) :
    (t - (y1 - (y2 - y1) / (x2 - x1) * x1)) / ((y2 - y1) / (x2 - x1))
      = (x2 - x1) / (y2 - y1) * t + (x1 - (x2 - x1) / (y2 - y1) * y1) := by
  have hx21 : x2 - x1 ≠ 0 := by
    intro h
    apply hm
    rw [h, div_zero]
  have hy21 : y2 - y1 ≠ 0 := by
    intro h
    apply hm
    rw [h, zero_div]
  field_simp
  ring

theorem h_diagonal_fill_distance_transpose (x1 y1 x2 y2 : ℚ) (x y : ℕ)
    (hm : (y2 - y1) / (x2 - x1) ≠ 0) :
    h_diagonal_fill_distance x1 y1 x2 y2 x y = v_diagonal_fill_distance y1 x1 y2 x2 y x := by
  unfold h_diagonal_fill_distance v_diagonal_fill_distance
  simp only [line_inverse x1 y1 x2 y2 _ hm]

/-- Where the line is not wholly to the right of the raster, the step count of
`h_diagonal_fill` is that of `v_diagonal_fill` on the transposed input. -/
theorem h_diagonal_fill_steps0_transpose (a b : Image) (x1 y1 x2 y2 : ℚ)
    (hm : (y2 - y1) / (x2 - x1) ≠ 0) (hbc : b.columns = a.rows) (hbr : b.rows = a.columns)
    (hn : ¬ (-(y1 - (y2 - y1) / (x2 - x1) * x1) / ((y2 - y1) / (x2 - x1)) > (a.columns : ℚ) ∧
      ((a.rows : ℚ) - (y1 - (y2 - y1) / (x2 - x1) * x1)) / ((y2 - y1) / (x2 - x1))
        > (a.columns : ℚ))) :
    h_diagonal_fill_steps0 a x1 y1 x2 y2 = v_diagonal_fill_steps0 b y1 x1 y2 x2 := by
  have e1 : -(y1 - (y2 - y1) / (x2 - x1) * x1) / ((y2 - y1) / (x2 - x1))
      = x1 - (x2 - x1) / (y2 - y1) * y1 := by
    have h := line_inverse x1 y1 x2 y2 0 hm
    simpa using h
  have e2 := line_inverse x1 y1 x2 y2 (a.rows : ℚ) hm
  rw [e1, e2] at hn
  unfold h_diagonal_fill_steps0 v_diagonal_fill_steps0
  simp only [e1, e2, hbc, hbr, if_neg hn]

/-- C14, the code at the failing input and next to it: on a 4 by 4 raster the line through
(6, 0) and (6.5, 4) lies wholly to the right of the raster; `h_diagonal_fill` has the
step count 8.5 and stores 180 at pixel (0, 0), while `v_diagonal_fill` on the transposed
input has the step count 9 and stores 170 at pixel (0, 0). For every line of non-zero
slope the distances of the two fills agree at transposed pixels, and when the line is not
wholly to the right of the raster so do the step counts and the stored pixels. -/
theorem h_diagonal_fill_transpose (QuantumMax : ℕ) (a b : Image) (x1 y1 x2 y2 : ℚ)
    (start_color stop_color : PixelPacket) (x y : ℕ)
    (hm : (y2 - y1) / (x2 - x1) ≠ 0) (hbc : b.columns = a.rows) (hbr : b.rows = a.columns)
    (hx : x < a.columns) (hy : y < a.rows) :
    (h_diagonal_fill_steps (blank 4 4 (gray 7)) 6 0 (13 / 2) 4 = 17 / 2 ∧
      v_diagonal_fill_steps (blank 4 4 (gray 7)) 0 6 4 (13 / 2) = 9 ∧
      (h_diagonal_fill 255 (blank 4 4 (gray 7)) 6 0 (13 / 2) 4 (gray 0) (gray 255)).pixels 0 0
        = gray 180 ∧
      (v_diagonal_fill 255 (blank 4 4 (gray 7)) 0 6 4 (13 / 2) (gray 0) (gray 255)).pixels 0 0
        = gray 170) ∧
    h_diagonal_fill_distance x1 y1 x2 y2 x y = v_diagonal_fill_distance y1 x1 y2 x2 y x ∧
    (¬ (-(y1 - (y2 - y1) / (x2 - x1) * x1) / ((y2 - y1) / (x2 - x1)) > (a.columns : ℚ) ∧
        ((a.rows : ℚ) - (y1 - (y2 - y1) / (x2 - x1) * x1)) / ((y2 - y1) / (x2 - x1))
          > (a.columns : ℚ)) →
      h_diagonal_fill_steps a x1 y1 x2 y2 = v_diagonal_fill_steps b y1 x1 y2 x2 ∧
      (h_diagonal_fill QuantumMax a x1 y1 x2 y2 start_color stop_color).pixels x y
        = (v_diagonal_fill QuantumMax b y1 x1 y2 x2 start_color stop_color).pixels y x) := by
  have t1 : to_int (-(5 / 2) : ℚ) = -2 :=
    to_int_of_neg _ _ (by norm_num) (by norm_num) (by norm_num)
  have t2 : to_int (-2 : ℚ) = -2 := to_int_of_neg _ _ (by norm_num) (by norm_num) (by norm_num)
  have t3 : to_int (-6 : ℚ) = -6 := to_int_of_neg _ _ (by norm_num) (by norm_num) (by norm_num)
  have s1 : h_diagonal_fill_steps (blank 4 4 (gray 7)) 6 0 (13 / 2) 4 = 17 / 2 := by
    unfold h_diagonal_fill_steps h_diagonal_fill_steps0
    simp only [blank]
    norm_num [FMAX, t1, t2]
  have s2 : v_diagonal_fill_steps (blank 4 4 (gray 7)) 0 6 4 (13 / 2) = 9 := by
    unfold v_diagonal_fill_steps v_diagonal_fill_steps0
    simp only [blank]
    norm_num [FMAX]
  have d1 : h_diagonal_fill_distance 6 0 (13 / 2) 4 0 0 = 6 := by
    unfold h_diagonal_fill_distance
    norm_num [t3]
  have d2 : v_diagonal_fill_distance 0 6 4 (13 / 2) 0 0 = 6 := by
    unfold v_diagonal_fill_distance
    norm_num [t3]
  refine ⟨⟨s1, s2, ?_, ?_⟩, h_diagonal_fill_distance_transpose x1 y1 x2 y2 x y hm, ?_⟩
  · rw [h_diagonal_fill_pixels 255 (blank 4 4 (gray 7)) _ _ _ _ _ _ 0 0 (by decide) (by decide),
      (h_diagonal_fill_no_swap _ _ _ _ _ _ _).1, (h_diagonal_fill_no_swap _ _ _ _ _ _ _).2,
      s1, d1]
    simp only [gradient_pixel, gray]
    rw [ROUND_TO_QUANTUM_eq 255 180 _ (by decide) (by norm_num) (by norm_num)]
  · rw [v_diagonal_fill_pixels 255 (blank 4 4 (gray 7)) _ _ _ _ _ _ 0 0 (by decide) (by decide),
      (v_diagonal_fill_no_swap _ _ _ _ _ _ _).1, (v_diagonal_fill_no_swap _ _ _ _ _ _ _).2,
      s2, d2]
    simp only [gradient_pixel, gray]
    rw [ROUND_TO_QUANTUM_eq 255 170 _ (by decide) (by norm_num) (by norm_num)]
  · intro hn
    have es : h_diagonal_fill_steps a x1 y1 x2 y2 = v_diagonal_fill_steps b y1 x1 y2 x2 := by
      unfold h_diagonal_fill_steps v_diagonal_fill_steps
      rw [h_diagonal_fill_steps0_transpose a b x1 y1 x2 y2 hm hbc hbr hn]
    refine ⟨es, ?_⟩
    rw [h_diagonal_fill_pixels QuantumMax a _ _ _ _ _ _ x y hx hy,
      v_diagonal_fill_pixels QuantumMax b _ _ _ _ _ _ y x (by omega) (by omega),
      (h_diagonal_fill_no_swap _ _ _ _ _ _ _).1, (h_diagonal_fill_no_swap _ _ _ _ _ _ _).2,
      (v_diagonal_fill_no_swap _ _ _ _ _ _ _).1, (v_diagonal_fill_no_swap _ _ _ _ _ _ _).2,
      es, h_diagonal_fill_distance_transpose x1 y1 x2 y2 x y hm]

/-- Witness of C14: the line through (0, 0) and (1, 2) on a 2 by 4 raster and its
transpose, pixel (1, 3). -/
theorem h_diagonal_fill_transpose_witness :
    h_diagonal_fill_distance 0 0 1 2 1 3 = v_diagonal_fill_distance 0 0 2 1 3 1 :=
  (h_diagonal_fill_transpose 255 (blank 2 4 (gray 7)) (blank 4 2 (gray 7)) 0 0 1 2
    (gray 0) (gray 255) 1 3 (by norm_num) rfl rfl (by decide) (by decide)).2.1

/-! ## Horizontal fill and vertical fill -/

/-- C15: horizontal fill is vertical fill with the axes swapped: on a raster of `C` columns
and `R` rows, `horizontal_fill` with `y1 = p` has the step count and the master sequence of
`vertical_fill` with `x1 = p` on a raster of `R` columns and `C` rows, and its pixel
`(x, y)` is the pixel `(y, x)` of that vertical fill. -/
theorem horizontal_fill_transpose (QuantumMax : ℕ) (a b : Image) (p : ℚ)
    (start_color stop_color : PixelPacket) (x y : ℕ)
    (hbc : b.columns = a.rows) (hbr : b.rows = a.columns)
    (hx : x < a.columns) (hy : y < a.rows) :
    horizontal_fill_steps a p = vertical_fill_steps b p ∧
    horizontal_fill_master QuantumMax a p start_color stop_color y
      = vertical_fill_master QuantumMax b p start_color stop_color y ∧
    (horizontal_fill QuantumMax a p start_color stop_color).pixels x y
      = (vertical_fill QuantumMax b p start_color stop_color).pixels y x := by
  have es : horizontal_fill_steps a p = vertical_fill_steps b p := by
    unfold horizontal_fill_steps vertical_fill_steps horizontal_fill_steps0
      vertical_fill_steps0
    rw [hbc]
  refine ⟨es, ?_, ?_⟩
  · rw [horizontal_fill_master_apply QuantumMax a p _ _ y hy,
      vertical_fill_master_apply QuantumMax b p _ _ y (by omega),
      (horizontal_fill_no_swap _ _ _ _).1, (horizontal_fill_no_swap _ _ _ _).2,
      (vertical_fill_no_swap _ _ _ _).1, (vertical_fill_no_swap _ _ _ _).2, es]
  · rw [horizontal_fill_pixels QuantumMax a p _ _ x y hx hy,
      vertical_fill_pixels QuantumMax b p _ _ y x (by omega) (by omega),
      (horizontal_fill_no_swap _ _ _ _).1, (horizontal_fill_no_swap _ _ _ _).2,
      (vertical_fill_no_swap _ _ _ _).1, (vertical_fill_no_swap _ _ _ _).2, es]

/-- Witness of C15: a 2 by 4 raster and its transpose, pixel (1, 3). -/
theorem horizontal_fill_transpose_witness :
    (horizontal_fill 255 (blank 2 4 (gray 7)) 1 (gray 0) (gray 255)).pixels 1 3
      = (vertical_fill 255 (blank 4 2 (gray 7)) 1 (gray 0) (gray 255)).pixels 3 1 :=
  (horizontal_fill_transpose 255 (blank 2 4 (gray 7)) (blank 4 2 (gray 7)) 1 (gray 0)
    (gray 255) 1 3 rfl rfl (by decide) (by decide)).2.2

/-! ## The slope in the horizontal-leaning path -/

/-- C16: on a raster with `columns > 0`, whenever `GradientFill_fill` selects
`h_diagonal_fill` the slope `m = (y2-y1)/(x2-x1)` is not zero: `|m| > rows/columns >= 0`,
and `x2 - x1` is not zero either; this includes the specs with `|x2-x1|` or `|y2-y1|`
exactly 0.5. -/
theorem h_diagonal_slope_ne_zero (self : rm_GradientFill) (image : Image)
    (hc : 0 < image.columns)
    (hs : GradientFill_strategy self image = Strategy.h_diagonal) :
    (self.y2 - self.y1) / (self.x2 - self.x1) ≠ 0 ∧
    (image.rows : ℚ) / (image.columns : ℚ) < |(self.y2 - self.y1) / (self.x2 - self.x1)| ∧
    0 ≤ (image.rows : ℚ) / (image.columns : ℚ) ∧
    self.x2 - self.x1 ≠ 0 := by
  have _hc := hc
  have h0 : 0 ≤ (image.rows : ℚ) / (image.columns : ℚ) := by positivity
  have h1 : (image.rows : ℚ) / (image.columns : ℚ)
      < |(self.y2 - self.y1) / (self.x2 - self.x1)| := by
    unfold GradientFill_strategy at hs
    simp only at hs
    split_ifs at hs with c1 c2 c3 c4
    exact not_le.mp c4
  have h2 : (self.y2 - self.y1) / (self.x2 - self.x1) ≠ 0 := by
    intro h
    rw [h, abs_zero] at h1
    exact absurd h1 (not_lt.mpr h0)
  refine ⟨h2, h1, h0, ?_⟩
  intro h
  apply h2
  rw [h, div_zero]

/-- Witness of C16: a spec with `|x2-x1|` exactly 0.5 on a 4 by 4 raster. -/
theorem h_diagonal_slope_ne_zero_witness :
    GradientFill_strategy ⟨6, 0, 13 / 2, 4, gray 0, gray 255⟩ (blank 4 4 (gray 7))
      = Strategy.h_diagonal ∧
    ((4 : ℚ) - 0) / (13 / 2 - 6) ≠ 0 :=
  have hs : GradientFill_strategy ⟨6, 0, 13 / 2, 4, gray 0, gray 255⟩ (blank 4 4 (gray 7))
      = Strategy.h_diagonal := by
    have ha : |(1 / 2 : ℚ)| = 1 / 2 := abs_of_pos (by norm_num)
    unfold GradientFill_strategy
    norm_num [blank, ha]
  ⟨hs, (h_diagonal_slope_ne_zero ⟨6, 0, 13 / 2, 4, gray 0, gray 255⟩ (blank 4 4 (gray 7))
    (by decide) hs).1⟩

/-! ## The test `steps < 0` -/

/-- C17: in `vertical_fill`, `horizontal_fill`, `v_diagonal_fill` and `h_diagonal_fill`
the step count before the test `steps < 0` is at least half the relevant dimension
(columns/2 for vertical and diagonal-horizontal-leaning, rows/2 for horizontal and
diagonal-vertical-leaning), so it is never negative, the branch that swaps the colours is
never taken, and the colours used are the start and stop colours in their order. -/
theorem steps_before_test (image : Image) (x1 y1 x2 y2 : ℚ)
    (start_color stop_color : PixelPacket) :
    ((image.columns : ℚ) / 2 ≤ vertical_fill_steps0 image x1 ∧
      (image.rows : ℚ) / 2 ≤ horizontal_fill_steps0 image y1 ∧
      (image.rows : ℚ) / 2 ≤ v_diagonal_fill_steps0 image x1 y1 x2 y2 ∧
      (image.columns : ℚ) / 2 ≤ h_diagonal_fill_steps0 image x1 y1 x2 y2) ∧
    (¬ (vertical_fill_steps0 image x1 < 0) ∧
      ¬ (horizontal_fill_steps0 image y1 < 0) ∧
      ¬ (v_diagonal_fill_steps0 image x1 y1 x2 y2 < 0) ∧
      ¬ (h_diagonal_fill_steps0 image x1 y1 x2 y2 < 0)) ∧
    (vertical_fill_start image x1 start_color stop_color = start_color ∧
      vertical_fill_stop image x1 start_color stop_color = stop_color) ∧
    (horizontal_fill_start image y1 start_color stop_color = start_color ∧
      horizontal_fill_stop image y1 start_color stop_color = stop_color) ∧
    (v_diagonal_fill_start image x1 y1 x2 y2 start_color stop_color = start_color ∧
      v_diagonal_fill_stop image x1 y1 x2 y2 start_color stop_color = stop_color) ∧
    (h_diagonal_fill_start image x1 y1 x2 y2 start_color stop_color = start_color ∧
      h_diagonal_fill_stop image x1 y1 x2 y2 start_color stop_color = stop_color) := by
  have hcq : (0 : ℚ) ≤ (image.columns : ℚ) / 2 := by positivity
  have hrq : (0 : ℚ) ≤ (image.rows : ℚ) / 2 := by positivity
  have g1 := vertical_fill_steps0_ge image x1
  have g2 := horizontal_fill_steps0_ge image y1
  have g3 := v_diagonal_fill_steps0_ge image x1 y1 x2 y2
  have g4 := h_diagonal_fill_steps0_ge image x1 y1 x2 y2
  exact ⟨⟨g1, g2, g3, g4⟩,
    ⟨not_lt.mpr (le_trans hcq g1), not_lt.mpr (le_trans hrq g2),
      not_lt.mpr (le_trans hrq g3), not_lt.mpr (le_trans hcq g4)⟩,
    vertical_fill_no_swap image x1 start_color stop_color,
    horizontal_fill_no_swap image y1 start_color stop_color,
    v_diagonal_fill_no_swap image x1 y1 x2 y2 start_color stop_color,
    h_diagonal_fill_no_swap image x1 y1 x2 y2 start_color stop_color⟩

/-! ## Interpolation without extrapolation -/

end Rmfill
